import Mathlib

/-!
# rls-guard — verification of the Policy Expression Translation & Local Simulation Engine

Shallow embedding, in Lean 4, of the core subsystem of the `rls-guard` repository:

* `src/lib/expression-parser.js` — `parseExpression`, `parseComplexExpression`,
  `generateHelperCall` (ExpressionClassifier / HelperCallGenerator);
* `src/lib/introspector.ts` — `PolicyIntrospector.transformPolicyRow`,
  `normalizeCommand`, `parseRoles`;
* the RLS simulator module (`RLSSimulator`): `select`, `canInsertOrUpdate`,
  `getApplicablePolicies`, `evaluateExpression`, `createEvaluationContext`,
  `convertToJavaScript`, `safeEval`;
* the testing framework module: `testPolicies`.

Modelling conventions:

* JavaScript regular expressions used by the source are deterministic for the
  specific patterns involved (no observable backtracking, because the character
  classes involved are pairwise disjoint); each is embedded as an explicit
  matcher over `List Char`, scanning positions left to right exactly as the JS
  engine finds the leftmost match.
* JS numbers used for confidences and milliseconds are modelled as `ℚ`
  respectively `Int`/`Nat`; every arithmetic operation performed by the code on
  these values is exact in double precision for the values that occur.
* The dynamic evaluation `new Function(...)(...)` inside `safeEval` is the one
  part of the engine that cannot be shallowly embedded; it is modelled by an
  explicit parameter `rawEval : String → EvalContext → Option Bool` standing
  for "run the translated JavaScript expression against the evaluation
  context"; `none` models a thrown exception (either from `new Function` or
  from the call). Everything around it (context construction, translation,
  the try/catch fail-closed policy, policy combination) is embedded concretely.
* `new Date()` readings are modelled by an explicit `Clock` input.
* Recursive string-splitting functions are defined with an explicit fuel
  argument (`fuel := length + 1`) so that they are structurally recursive and
  kernel-computable; fuel-sufficiency lemmas below recover the source's
  natural recursion equations.
-/

namespace RlsGuard

/-! ## Character / list utilities shared by the regex-emulating matchers -/

/-- JS `\s` (whitespace) character class, as used by the source's regexes. -/
def isSpaceChar (c : Char) : Bool := c.isWhitespace

/-- JS `\d` character class. -/
def isDigitChar (c : Char) : Bool := c.isDigit

/-- JS `\w` character class: `[A-Za-z0-9_]`. -/
def isWordChar (c : Char) : Bool := c.isAlphanum || c == '_'

/-- Case-insensitive literal match (regexes flagged `/i`): consume `pat`
from the front of `l`, returning the rest. -/
def matchLitCi : List Char → List Char → Option (List Char)
  | [], l => some l
  | _ :: _, [] => none
  | p :: ps, c :: cs => if p.toLower == c.toLower then matchLitCi ps cs else none

/-- Case-sensitive literal match (regexes without the `/i` flag). -/
def matchLitCs : List Char → List Char → Option (List Char)
  | [], l => some l
  | _ :: _, [] => none
  | p :: ps, c :: cs => if p == c then matchLitCs ps cs else none

/-- `startsWithSeq pat l`: `pat` is a prefix of `l` (exact characters). -/
def startsWithSeq : List Char → List Char → Bool
  | [], _ => true
  | _ :: _, [] => false
  | p :: ps, c :: cs => p == c && startsWithSeq ps cs

/-- JS `String.prototype.includes` on character lists (exact characters). -/
def containsSeq (pat : List Char) : List Char → Bool
  | [] => startsWithSeq pat []
  | c :: cs => startsWithSeq pat (c :: cs) || containsSeq pat cs

/-- Value of an all-digit capture, as computed by JS `parseInt` on it. -/
def digitsVal (ds : List Char) : Nat :=
  ds.foldl (fun n c => 10 * n + (c.toNat - '0'.toNat)) 0

/-- JS `String.prototype.trim` (whitespace stripped from both ends),
implemented over the character list so that it is kernel-computable
(the core `String.trim` is position-based and does not reduce). -/
def jsTrim (s : String) : String :=
  String.mk (((s.data.dropWhile isSpaceChar).reverse.dropWhile isSpaceChar).reverse)

/-- JS `String.prototype.toLowerCase` (ASCII case folding, which is all the
source's SQL inputs use), implemented over the character list. -/
def jsToLower (s : String) : String :=
  String.mk (s.data.map Char.toLower)

/-- JS `String.prototype.split` with a single-character separator. -/
def splitOnChar (sep : Char) (l : List Char) : List (List Char) :=
  l.foldr
    (fun c acc =>
      if c == sep then [] :: acc
      else
        match acc with
        | a :: rest => (c :: a) :: rest
        | [] => [[c]])
    [[]]

/-- JS object-literal lookup where later keys override earlier ones
(`{...defaults, ...overrides}[key]`). -/
def objGet (l : List (String × String)) (k : String) : Option String :=
  l.foldl (fun acc kv => if kv.1 == k then some kv.2 else acc) none

/-! ## Data model of the simulator module -/

/-- An untyped JS value as it occurs in mock-data rows. -/
inductive Value where
  | str (s : String)
  | num (n : Int)
  | bool (b : Bool)
  | null
deriving DecidableEq

/-- A mock-data row: `Record<string, any>`. -/
abbrev Row := List (String × Value)

/-- `UserContext` from the simulator module.  The optional `settings?` record
is modelled as an association list (`[]` when absent). -/
structure UserContext where
  user : String
  role : String
  settings : List (String × String)
deriving DecidableEq

/-- `PolicyDefinition` from the simulator module.  `command` is one of
`SELECT | INSERT | UPDATE | DELETE | ALL`; the optional `permissive?` flag is
`Option Bool`.  Note that the simulator's code never reads `permissive`. -/
structure PolicyDefinition where
  name : String
  table : String
  command : String
  roles : List String
  expression : String
  permissive : Option Bool
deriving DecidableEq

/-- The two `new Date()` readings taken by `createEvaluationContext`:
`now` and its midnight truncation `current_date`, in epoch milliseconds. -/
structure Clock where
  now : Int
  currentDate : Int

/-- The evaluation-context object built by `createEvaluationContext`:
the row's own bindings plus the emulated PostgreSQL built-ins. -/
structure EvalContext where
  row : Row
  current_setting : String → String
  current_date : Int
  now : Int
  interval : String → Int

/-! ## The emulated `interval(...)` helper

Source regex: `/(\d+)\s+(days?|hours?|minutes?)/i` followed by a `switch` on
the lowercased unit. -/

/-- The `(days?|hours?|minutes?)` alternation of the interval regex,
case-insensitive, with the greedy optional `s`; returns the lowercased
captured unit (the source lowercases `match[2]`). -/
def matchIntervalUnit (l : List Char) : Option String :=
  match matchLitCi "day".data l with
  | some r =>
    match r with
    | c :: _ => if c.toLower == 's' then some "days" else some "day"
    | [] => some "day"
  | none =>
    match matchLitCi "hour".data l with
    | some r =>
      match r with
      | c :: _ => if c.toLower == 's' then some "hours" else some "hour"
      | [] => some "hour"
    | none =>
      match matchLitCi "minute".data l with
      | some r =>
        match r with
        | c :: _ => if c.toLower == 's' then some "minutes" else some "minute"
        | [] => some "minute"
      | none => none

/-- Attempt the interval regex at the current position:
`(\d+)` (greedy, exact since a digit is neither whitespace nor a unit letter),
then `\s+`, then the unit alternation. -/
def intervalMatchAt (l : List Char) : Option (Nat × String) :=
  let ds := l.takeWhile isDigitChar
  if ds.isEmpty then none
  else
    let r1 := l.drop ds.length
    let ws := r1.takeWhile isSpaceChar
    if ws.isEmpty then none
    else
      match matchIntervalUnit (r1.drop ws.length) with
      | some u => some (digitsVal ds, u)
      | none => none

/-- Leftmost match of the interval regex (JS `String.prototype.match`). -/
def intervalSearch : List Char → Option (Nat × String)
  | [] => none
  | c :: cs =>
    match intervalMatchAt (c :: cs) with
    | some r => some r
    | none => intervalSearch cs

/-- The `interval` helper installed in the evaluation context
(milliseconds for `'N days'`-style strings, `0` when nothing matches). -/
def intervalVal (value : String) : Int :=
  match intervalSearch value.data with
  | none => 0
  | some (amount, unit) =>
    if unit == "day" || unit == "days" then (amount : Int) * (24 * 60 * 60 * 1000)
    else if unit == "hour" || unit == "hours" then (amount : Int) * (60 * 60 * 1000)
    else if unit == "minute" || unit == "minutes" then (amount : Int) * (60 * 1000)
    else 0

/-! ## `createEvaluationContext` -/

/-- The settings object built inside the emulated `current_setting`:
three derived keys, then the user-supplied settings spread over them
(later keys override). -/
def settingsObject (ctx : UserContext) : List (String × String) :=
  [("app.current_user_id", ctx.user),
   ("app.user_role", ctx.role),
   ("app.tenant_id", (objGet ctx.settings "tenant_id").getD "")]
  ++ ctx.settings

/-- The emulated `current_setting` built-in: looks the key up in the settings
object and falls back to `''` (`settings[key] || ''`). -/
def currentSettingOf (ctx : UserContext) (key : String) : String :=
  (objGet (settingsObject ctx) key).getD ""

/-- `RLSSimulator.createEvaluationContext`: row bindings plus the emulated
built-ins.  The `tableName` parameter is present in the source and unused. -/
def createEvaluationContext (ctx : UserContext) (clock : Clock) (row : Row)
    (tableName : String) : EvalContext :=
  let _ := tableName
  { row := row
    current_setting := fun key => currentSettingOf ctx key
    current_date := clock.currentDate
    now := clock.now
    interval := intervalVal }

/-! ## The ExpressionClassifier (`parseExpression` and friends)

The result object of `parseExpression`: `{helper, params?, raw, confidence,
reason?, conditions?}`.  The heterogeneous `params` object is modelled by a
small sum type; absent fields are `Option.none` / `[]`. -/

/-- The `params` object attached to an idiom match. -/
inductive PEParams where
  | none
  | column (column : String)
  | role (role : String)
  | columnDays (column : String) (days : Nat)
  | columnHours (column : String) (hours : Nat)
  | ownerCols (userColumn ownerColumn : String)
deriving DecidableEq

/-- A classified expression (`ClassifiedExpression` of the spec). -/
inductive ParsedExpr where
  | mk (helper : String) (params : PEParams) (raw : String) (confidence : ℚ)
       (reason : Option String) (conditions : List ParsedExpr)

/-- The `helper` field. -/
def ParsedExpr.helper : ParsedExpr → String
  | .mk h _ _ _ _ _ => h

/-- The `params` field. -/
def ParsedExpr.params : ParsedExpr → PEParams
  | .mk _ p _ _ _ _ => p

/-- The `raw` field. -/
def ParsedExpr.raw : ParsedExpr → String
  | .mk _ _ r _ _ _ => r

/-- The `confidence` field. -/
def ParsedExpr.confidence : ParsedExpr → ℚ
  | .mk _ _ _ c _ _ => c

/-- The `reason` field. -/
def ParsedExpr.reason : ParsedExpr → Option String
  | .mk _ _ _ _ r _ => r

/-- The `conditions` field. -/
def ParsedExpr.conditions : ParsedExpr → List ParsedExpr
  | .mk _ _ _ _ _ c => c

/-- Leftmost-match search for a matcher attempted at every position
(JS `String.prototype.match` semantics for the patterns used here). -/
def scanFor {α : Type} (tryAt : List Char → Option α) : List Char → Option α
  | [] => tryAt []
  | c :: cs =>
    match tryAt (c :: cs) with
    | some r => some r
    | none => scanFor tryAt cs

/-- Consume one optional `(` (the regex `\(?`; deterministic because no
continuation of these patterns can begin with `(`). -/
def skipOptParen : List Char → List Char
  | '(' :: r => r
  | l => l

/-- Idiom 1, `currentUserId`:
`/\(?(\w+)\s*=\s*\(?current_setting\('app\.current_user_id'(?:::text)?\)(?:::uuid)?\)?/i`.
Returns the captured column. -/
def currentUserIdAt (l : List Char) : Option String :=
  let l1 := skipOptParen l
  let w := l1.takeWhile isWordChar
  if w.isEmpty then none
  else
    let r1 := l1.drop w.length
    let ws1 := r1.takeWhile isSpaceChar
    match r1.drop ws1.length with
    | '=' :: r2 =>
      let ws2 := r2.takeWhile isSpaceChar
      let r3 := skipOptParen (r2.drop ws2.length)
      match matchLitCi "current_setting('app.current_user_id'".data r3 with
      | none => none
      | some r4 =>
        let r5 := match matchLitCi "::text".data r4 with
          | some r => r
          | none => r4
        match r5 with
        | ')' :: _ => some (String.mk w)
        | _ => none
    | _ => none

/-- Idiom 2, `tenantId`:
`/(\w+)\s*=\s*current_setting\('app\.tenant_id'\)::uuid/i`. -/
def tenantIdAt (l : List Char) : Option String :=
  let w := l.takeWhile isWordChar
  if w.isEmpty then none
  else
    let r1 := l.drop w.length
    let ws1 := r1.takeWhile isSpaceChar
    match r1.drop ws1.length with
    | '=' :: r2 =>
      let ws2 := r2.takeWhile isSpaceChar
      match matchLitCi "current_setting('app.tenant_id')::uuid".data (r2.drop ws2.length) with
      | some _ => some (String.mk w)
      | none => none
    | _ => none

/-- Idiom 3, `roleCheck`:
`/current_setting\('app\.user_role'\)\s*=\s*'([^']+)'/i`. -/
def roleCheckAt (l : List Char) : Option String :=
  match matchLitCi "current_setting('app.user_role')".data l with
  | none => none
  | some r1 =>
    let ws1 := r1.takeWhile isSpaceChar
    match r1.drop ws1.length with
    | '=' :: r2 =>
      let ws2 := r2.takeWhile isSpaceChar
      match r2.drop ws2.length with
      | '\'' :: r3 =>
        let content := r3.takeWhile (fun c => !(c == '\''))
        if content.isEmpty then none
        else
          match r3.drop content.length with
          | '\'' :: _ => some (String.mk content)
          | _ => none
      | _ => none
    | _ => none

/-- The `'(\d+)\s*days?'` core shared by both alternatives of idiom 4:
a quote, digits, optional space, `day` with greedy optional `s`
(case-insensitive), a quote.  Returns the digit capture and the rest. -/
def quotedDaysAt (l : List Char) : Option (List Char × List Char) :=
  match l with
  | '\'' :: r1 =>
    let ds := r1.takeWhile isDigitChar
    if ds.isEmpty then none
    else
      let r2 := r1.drop ds.length
      let ws := r2.takeWhile isSpaceChar
      match matchLitCi "day".data (r2.drop ws.length) with
      | none => none
      | some r3 =>
        let r4 := match r3 with
          | c :: r => if c.toLower == 's' then r else r3
          | [] => r3
        match r4 with
        | '\'' :: r5 => some (ds, r5)
        | _ => none
  | _ => none

/-- Idiom 4, `recentData`:
`/\(?(\w+)\s*>=\s*\(?(?:current_date|CURRENT_DATE)\s*-\s*(?:'(\d+)\s*days?'::interval|interval\s*'(\d+)\s*days?')\)?/i`.
Returns column and days. -/
def recentDataAt (l : List Char) : Option (String × Nat) :=
  let l1 := skipOptParen l
  let w := l1.takeWhile isWordChar
  if w.isEmpty then none
  else
    let r1 := l1.drop w.length
    let ws1 := r1.takeWhile isSpaceChar
    match r1.drop ws1.length with
    | '>' :: '=' :: r2 =>
      let ws2 := r2.takeWhile isSpaceChar
      let r3 := skipOptParen (r2.drop ws2.length)
      match matchLitCi "current_date".data r3 with
      | none => none
      | some r4 =>
        let ws3 := r4.takeWhile isSpaceChar
        match r4.drop ws3.length with
        | '-' :: r5 =>
          let ws4 := r5.takeWhile isSpaceChar
          let r6 := r5.drop ws4.length
          -- first alternative: '(\d+)\s*days?'::interval
          match (quotedDaysAt r6).bind (fun dr =>
              (matchLitCi "::interval".data dr.2).map (fun _ => dr.1)) with
          | some ds => some (String.mk w, digitsVal ds)
          | none =>
            -- second alternative: interval\s*'(\d+)\s*days?'
            match matchLitCi "interval".data r6 with
            | none => none
            | some r7 =>
              let ws5 := r7.takeWhile isSpaceChar
              match quotedDaysAt (r7.drop ws5.length) with
              | some dr => some (String.mk w, digitsVal dr.1)
              | none => none
        | _ => none
    | _ => none

/-- Idiom 5, `timeWindow`:
`/(\w+)\s*>=\s*now\(\)\s*-\s*interval\s*'(\d+)\s*hours?'/i`. -/
def timeWindowAt (l : List Char) : Option (String × Nat) :=
  let w := l.takeWhile isWordChar
  if w.isEmpty then none
  else
    let r1 := l.drop w.length
    let ws1 := r1.takeWhile isSpaceChar
    match r1.drop ws1.length with
    | '>' :: '=' :: r2 =>
      let ws2 := r2.takeWhile isSpaceChar
      match matchLitCi "now()".data (r2.drop ws2.length) with
      | none => none
      | some r3 =>
        let ws3 := r3.takeWhile isSpaceChar
        match r3.drop ws3.length with
        | '-' :: r4 =>
          let ws4 := r4.takeWhile isSpaceChar
          match matchLitCi "interval".data (r4.drop ws4.length) with
          | none => none
          | some r5 =>
            let ws5 := r5.takeWhile isSpaceChar
            match r5.drop ws5.length with
            | '\'' :: r6 =>
              let ds := r6.takeWhile isDigitChar
              if ds.isEmpty then none
              else
                let r7 := r6.drop ds.length
                let ws6 := r7.takeWhile isSpaceChar
                match matchLitCi "hour".data (r7.drop ws6.length) with
                | none => none
                | some r8 =>
                  let r9 := match r8 with
                    | c :: r => if c.toLower == 's' then r else r8
                    | [] => r8
                  match r9 with
                  | '\'' :: _ => some (String.mk w, digitsVal ds)
                  | _ => none
            | _ => none
        | _ => none
    | _ => none

/-- Idiom 6, `ownerOnly`: `/(\w+)\s*=\s*(\w+)/i` (the broadest pattern,
tried last). -/
def ownerOnlyAt (l : List Char) : Option (String × String) :=
  let w1 := l.takeWhile isWordChar
  if w1.isEmpty then none
  else
    let r1 := l.drop w1.length
    let ws1 := r1.takeWhile isSpaceChar
    match r1.drop ws1.length with
    | '=' :: r2 =>
      let ws2 := r2.takeWhile isSpaceChar
      let w2 := (r2.drop ws2.length).takeWhile isWordChar
      if w2.isEmpty then none else some (String.mk w1, String.mk w2)
    | _ => none

/-- The `patterns` loop of `parseExpression`: try each idiom against the
whole expression in priority order; first match wins and produces the
pattern's result object with its fixed confidence. -/
def idiomMatch (expression : String) : Option ParsedExpr :=
  match scanFor currentUserIdAt expression.data with
  | some column => some (.mk "currentUserId" (.column column) expression 0.9 none [])
  | none =>
  match scanFor tenantIdAt expression.data with
  | some column => some (.mk "tenantId" (.column column) expression 0.9 none [])
  | none =>
  match scanFor roleCheckAt expression.data with
  | some role => some (.mk "roleCheck" (.role role) expression 0.9 none [])
  | none =>
  match scanFor recentDataAt expression.data with
  | some cd => some (.mk "recentData" (.columnDays cd.1 cd.2) expression 0.8 none [])
  | none =>
  match scanFor timeWindowAt expression.data with
  | some ch => some (.mk "timeWindow" (.columnHours ch.1 ch.2) expression 0.8 none [])
  | none =>
  match scanFor ownerOnlyAt expression.data with
  | some uo => some (.mk "ownerOnly" (.ownerCols uo.1 uo.2) expression 0.6 none [])
  | none => none

/-- `expression.includes(' AND ') || expression.includes(' OR ')` —
the (case-sensitive) guard in front of `parseComplexExpression`. -/
def hasConnective (expression : String) : Bool :=
  containsSeq " AND ".data expression.data || containsSeq " OR ".data expression.data

/-! ### The split `expression.split(/\s+(AND|OR)\s+/i)`

`splitParts` returns the even-indexed fields of the JS split, i.e. exactly
the `parts[i]` visited by the `i += 2` loop (the odd entries are the
captured connectives, which the loop skips). -/

/-- Attempt the separator regex `\s+(AND|OR)\s+` (case-insensitive) at the
current position; returns the rest after the match.  Deterministic: the
greedy `\s+` runs are exact because neither `AND`/`OR` nor the following
character class overlaps with whitespace. -/
def sepMatchAt (l : List Char) : Option (List Char) :=
  let ws1 := l.takeWhile isSpaceChar
  if ws1.isEmpty then none
  else
    let r1 := l.drop ws1.length
    let afterWord := fun (r2 : List Char) =>
      let ws2 := r2.takeWhile isSpaceChar
      if ws2.isEmpty then none else some (r2.drop ws2.length)
    match matchLitCi "and".data r1 with
    | some r2 => afterWord r2
    | none =>
      match matchLitCi "or".data r1 with
      | some r2 => afterWord r2
      | none => none

/-- Leftmost separator match: the field before it and the rest after it. -/
def findSep : List Char → Option (List Char × List Char)
  | [] => none
  | c :: cs =>
    match sepMatchAt (c :: cs) with
    | some rest => some ([], rest)
    | none => (findSep cs).map (fun pr => (c :: pr.1, pr.2))

/-- Fueled splitting on the separator regex. -/
def splitPartsF : Nat → List Char → List (List Char)
  | 0, l => [l]
  | fuel + 1, l =>
    match findSep l with
    | none => [l]
    | some (pre, rest) => pre :: splitPartsF fuel rest

/-- The even-indexed fields of `expression.split(/\s+(AND|OR)\s+/i)`. -/
def splitParts (l : List Char) : List (List Char) :=
  splitPartsF (l.length + 1) l

/-- `Math.min(...)` over the (never empty in context) list of child
confidences. -/
def minConf : List ℚ → ℚ
  | [] => 0
  | c :: cs => cs.foldl min c

/-- Fueled `parseExpression`.  The fuel argument makes the
`parseExpression` / `parseComplexExpression` mutual recursion structural
(fuel `length + 1` always suffices: every split part is strictly shorter);
the body of `parseComplexExpression` is inlined at the recursive call site
and also exposed as the standalone `parseComplexExpression` below. -/
def parseExpressionF : Nat → String → ParsedExpr
  | 0, expression =>
    .mk "custom" .none expression 0 (some "No matching helper pattern found") []
  | fuel + 1, expression =>
    if jsTrim expression == "" then
      .mk "publicAccess" .none expression 1 none []
    else
      let normalized := jsToLower (jsTrim expression)
      if normalized == "true" then
        .mk "publicAccess" .none expression 1 none []
      else if normalized == "false" then
        .mk "noAccess" .none expression 1 none []
      else
        match idiomMatch expression with
        | some r => r
        | none =>
          if hasConnective expression then
            -- parseComplexExpression(expression), inlined
            let parts := splitParts expression.data
            let conditions :=
              (parts.map (fun p => parseExpressionF fuel (String.mk p))).filter
                (fun c => !(c.helper == "custom"))
            if 0 < conditions.length then
              .mk "complex" .none expression
                (minConf (conditions.map ParsedExpr.confidence) * 0.8) none conditions
            else
              .mk "custom" .none expression 0
                (some "Complex expression could not be parsed") []
          else
            .mk "custom" .none expression 0
              (some "No matching helper pattern found") []

/-- `parseExpression` from `expression-parser.js`. -/
def parseExpression (expression : String) : ParsedExpr :=
  parseExpressionF (expression.length + 1) expression

/-- The `conditions` list built by `parseComplexExpression`: each part is
classified independently and the `custom` results are dropped. -/
def complexConditions (expression : String) : List ParsedExpr :=
  ((splitParts expression.data).map (fun p => parseExpression (String.mk p))).filter
    (fun c => !(c.helper == "custom"))

/-- `parseComplexExpression` from `expression-parser.js`. -/
def parseComplexExpression (expression : String) : ParsedExpr :=
  let conditions := complexConditions expression
  if 0 < conditions.length then
    .mk "complex" .none expression
      (minConf (conditions.map ParsedExpr.confidence) * 0.8) none conditions
  else
    .mk "custom" .none expression 0
      (some "Complex expression could not be parsed") []

/-- `generateHelperCall` from `expression-parser.js`.  (In the `complex`
case the source maps `generateHelperCall` over the sub-conditions into a
local variable it never uses; that dead computation is omitted here, and the
returned annotated quoted literal is modelled exactly.) -/
def generateHelperCall (parsed : ParsedExpr) : String :=
  if parsed.helper == "custom" then "\"" ++ parsed.raw ++ "\""
  else if parsed.helper == "publicAccess" then "publicAccess()"
  else if parsed.helper == "noAccess" then "noAccess()"
  else if parsed.helper == "currentUserId" then
    match parsed.params with
    | .column column =>
      if column == "user_id" then "currentUserId()"
      else "currentUserId(\"" ++ column ++ "\")"
    | _ => "\"" ++ parsed.raw ++ "\""
  else if parsed.helper == "tenantId" then
    match parsed.params with
    | .column column =>
      if column == "tenant_id" then "tenantId()"
      else "tenantId(\"" ++ column ++ "\")"
    | _ => "\"" ++ parsed.raw ++ "\""
  else if parsed.helper == "roleCheck" then
    match parsed.params with
    | .role role => "roleCheck(\"" ++ role ++ "\")"
    | _ => "\"" ++ parsed.raw ++ "\""
  else if parsed.helper == "recentData" then
    match parsed.params with
    | .columnDays column days =>
      if column == "created_at" && days == 90 then "recentData()"
      else "recentData(\"" ++ column ++ "\", " ++ toString days ++ ")"
    | _ => "\"" ++ parsed.raw ++ "\""
  else if parsed.helper == "timeWindow" then
    match parsed.params with
    | .columnHours column hours =>
      "timeWindow(\"" ++ column ++ "\", " ++ toString hours ++ ")"
    | _ => "\"" ++ parsed.raw ++ "\""
  else if parsed.helper == "ownerOnly" then
    match parsed.params with
    | .ownerCols userColumn ownerColumn =>
      if userColumn == "user_id" && ownerColumn == "owner_id" then "ownerOnly()"
      else "ownerOnly(\"" ++ userColumn ++ "\", \"" ++ ownerColumn ++ "\")"
    | _ => "\"" ++ parsed.raw ++ "\""
  else if parsed.helper == "complex" then
    "/* Complex: " ++ parsed.raw ++ " */ \"" ++ parsed.raw ++ "\""
  else "\"" ++ parsed.raw ++ "\""

/-! ## `convertToJavaScript` — the ExpressionTranslator

The source applies a fixed chain of `String.prototype.replace` calls.  Each
regex is embedded as a deterministic matcher; a generic scanner applies it
globally, exactly as a `/g` replace does (leftmost match, continue after the
match). -/

/-- JS line terminators, excluded by the regex metacharacter `.`. -/
def isLineTerm (c : Char) : Bool :=
  c == '\n' || c == '\r' || c == ' ' || c == ' '

/-- One global-replace scan.  `tryAt prev l` attempts a match at the head of
`l` (`prev` is the character just before the current position, for `\b`
boundaries) and returns the replacement text plus the number of source
characters consumed.  Fuel (`length` at the top call) bounds the recursion;
every matcher used consumes at least one character per match. -/
def replaceScan (tryAt : Option Char → List Char → Option (List Char × Nat)) :
    Nat → Option Char → List Char → List Char
  | 0, _, l => l
  | _ + 1, _, [] => []
  | fuel + 1, prev, c :: cs =>
    match tryAt prev (c :: cs) with
    | some (emit, k) =>
      emit ++ replaceScan tryAt fuel (((c :: cs).take k).getLast?) ((c :: cs).drop k)
    | none => c :: replaceScan tryAt fuel (some c) cs

/-- Global replace (`/.../g`) over a character list. -/
def replaceAll (tryAt : Option Char → List Char → Option (List Char × Nat))
    (l : List Char) : List Char :=
  replaceScan tryAt l.length none l

/-- `/\bW\b/gi → rep`: case-insensitive whole-word literal replacement
(rules `\btrue\b` and `\bfalse\b` of the translator). -/
def wordLitAt (w : List Char) (rep : List Char) (prev : Option Char)
    (l : List Char) : Option (List Char × Nat) :=
  if (match prev with | some p => isWordChar p | none => false) then none
  else
    match matchLitCi w l with
    | some rest =>
      match rest with
      | c :: _ => if isWordChar c then none else some (rep, w.length)
      | [] => some (rep, w.length)
    | none => none

/-- Case-sensitive literal replacement (`/::uuid/g`, `/::text/g`,
`/::interval/g` with empty replacement). -/
def litReplaceAt (pat : List Char) (rep : List Char) (l : List Char) :
    Option (List Char × Nat) :=
  (matchLitCs pat l).map (fun _ => (rep, pat.length))

/-- `/current_setting\(['"]([^'"]+)['"]\)/g → current_setting("$1")`:
normalizes the quoting style of `current_setting` calls. -/
def csNormAt (l : List Char) : Option (List Char × Nat) :=
  match matchLitCs "current_setting(".data l with
  | none => none
  | some r1 =>
    match r1 with
    | q1 :: r2 =>
      if q1 == '\'' || q1 == '"' then
        let content := r2.takeWhile (fun c => !(c == '\'' || c == '"'))
        if content.isEmpty then none
        else
          match r2.drop content.length with
          | q2 :: r3 =>
            if q2 == '\'' || q2 == '"' then
              match r3 with
              | ')' :: _ =>
                some ("current_setting(\"".data ++ content ++ "\")".data,
                      "current_setting(".length + 1 + content.length + 1 + 1)
              | _ => none
            else none
          | [] => none
      else none
    | [] => none

/-- `HEAD\s*-\s*interval\s*['"]([^'"]+)['"]` where `HEAD` is `current_date`
or `now()`; `emit` builds the replacement from the captured `$1`
(date-arithmetic rules of the translator). -/
def dateArithAt (head : List Char) (emit : List Char → List Char)
    (l : List Char) : Option (List Char × Nat) :=
  match matchLitCs head l with
  | none => none
  | some r1 =>
    let ws1 := r1.takeWhile isSpaceChar
    match r1.drop ws1.length with
    | '-' :: r2 =>
      let ws2 := r2.takeWhile isSpaceChar
      match matchLitCs "interval".data (r2.drop ws2.length) with
      | none => none
      | some r3 =>
        let ws3 := r3.takeWhile isSpaceChar
        match r3.drop ws3.length with
        | q1 :: r4 =>
          if q1 == '\'' || q1 == '"' then
            let content := r4.takeWhile (fun c => !(c == '\'' || c == '"'))
            if content.isEmpty then none
            else
              match r4.drop content.length with
              | q2 :: _ =>
                if q2 == '\'' || q2 == '"' then
                  some (emit content,
                        head.length + ws1.length + 1 + ws2.length
                          + "interval".length + ws3.length + 1 + content.length + 1)
                else none
              | [] => none
          else none
        | [] => none
    | _ => none

/-- The `(>=|<=|>|<)` alternation (two-character operators first, as the JS
alternation tries them in order); returns the operator and the rest. -/
def matchCmpOp (l : List Char) : Option (List Char × List Char) :=
  match l with
  | '>' :: '=' :: r => some (">=".data, r)
  | '<' :: '=' :: r => some ("<=".data, r)
  | '>' :: r => some (">".data, r)
  | '<' :: r => some ("<".data, r)
  | _ => none

/-- The `(current_date|now\(\))` alternation; returns the matched literal
and the rest. -/
def matchDateExpr (l : List Char) : Option (List Char × List Char) :=
  match matchLitCs "current_date".data l with
  | some r => some ("current_date".data, r)
  | none =>
    match matchLitCs "now()".data l with
    | some r => some ("now()".data, r)
    | none => none

/-- `/(\w+)\s*(>=|<=|>|<)\s*(current_date|now\(\))/g
→ new Date($1).getTime() $2 $3.getTime()`. -/
def cmpRightAt (l : List Char) : Option (List Char × Nat) :=
  let w := l.takeWhile isWordChar
  if w.isEmpty then none
  else
    let r1 := l.drop w.length
    let ws1 := r1.takeWhile isSpaceChar
    match matchCmpOp (r1.drop ws1.length) with
    | none => none
    | some (op, r2) =>
      let ws2 := r2.takeWhile isSpaceChar
      match matchDateExpr (r2.drop ws2.length) with
      | none => none
      | some (rhs, _) =>
        some ("new Date(".data ++ w ++ ").getTime() ".data ++ op ++ " ".data
                ++ rhs ++ ".getTime()".data,
              w.length + ws1.length + op.length + ws2.length + rhs.length)

/-- `/(current_date|now\(\))\s*(>=|<=|>|<)\s*(\w+)/g
→ $1.getTime() $2 new Date($3).getTime()`. -/
def cmpLeftAt (l : List Char) : Option (List Char × Nat) :=
  match matchDateExpr l with
  | none => none
  | some (lhs, r1) =>
    let ws1 := r1.takeWhile isSpaceChar
    match matchCmpOp (r1.drop ws1.length) with
    | none => none
    | some (op, r2) =>
      let ws2 := r2.takeWhile isSpaceChar
      let w := (r2.drop ws2.length).takeWhile isWordChar
      if w.isEmpty then none
      else
        some (lhs ++ ".getTime() ".data ++ op ++ " new Date(".data ++ w
                ++ ").getTime()".data,
              lhs.length + ws1.length + op.length + ws2.length + w.length)

/-- `js.replace(/^\s*\((.*)\)\s*$/, '$1')`: strips one level of enclosing
parentheses.  Since `.` excludes line terminators, the greedy `(.*)` forces
the last `)` that is followed only by whitespace, and the captured middle may
not contain a line terminator. -/
def stripOuterParens (l : List Char) : List Char :=
  let lead := l.takeWhile isSpaceChar
  match l.drop lead.length with
  | '(' :: rest =>
    let revRest := rest.reverse
    let wsEnd := revRest.takeWhile isSpaceChar
    match revRest.drop wsEnd.length with
    | ')' :: revMid =>
      let mid := revMid.reverse
      if mid.any isLineTerm then l else mid
    | _ => l
  | _ => l

/-- `RLSSimulator.convertToJavaScript`: the fixed chain of textual rewrites
that turns a PostgreSQL predicate into the string handed to `safeEval`. -/
def convertToJavaScript (expression : String) : String :=
  let js := expression.data
  let js := replaceAll (wordLitAt "true".data "true".data) js
  let js := replaceAll (wordLitAt "false".data "false".data) js
  let js := replaceAll (fun _ => csNormAt) js
  let js := replaceAll (fun _ => litReplaceAt "::uuid".data [])  js
  let js := replaceAll (fun _ => litReplaceAt "::text".data [])  js
  let js := replaceAll (fun _ => litReplaceAt "::interval".data []) js
  let js := replaceAll (fun _ => dateArithAt "current_date".data
    (fun c => "new Date(current_date.getTime() - interval(\"".data ++ c ++ "\"))".data)) js
  let js := replaceAll (fun _ => dateArithAt "now()".data
    (fun c => "new Date(now().getTime() - interval(\"".data ++ c ++ "\"))".data)) js
  let js := replaceAll (fun _ => cmpRightAt) js
  let js := replaceAll (fun _ => cmpLeftAt) js
  let js := stripOuterParens js
  String.mk js

/-! ## `safeEval`, `evaluateExpression` and the engine operations -/

/-- `RLSSimulator.safeEval`: runs the translated expression via dynamic code
construction (modelled by `rawEval`; `none` = the construction or the call
threw) and recovers from a throw by returning `false` (the catch branch). -/
def safeEval (rawEval : String → EvalContext → Option Bool)
    (expression : String) (context : EvalContext) : Bool :=
  match rawEval expression context with
  | some b => b
  | none => false

/-- `RLSSimulator.evaluateExpression`: build the evaluation context, translate
the expression, and safely evaluate it; any throw yields `false`
(the outer try/catch; its only throwing step is the dynamic evaluation,
already modelled inside `safeEval`). -/
def evaluateExpression (rawEval : String → EvalContext → Option Bool)
    (ctx : UserContext) (clock : Clock) (expression : String) (row : Row)
    (tableName : String) : Bool :=
  let evalContext := createEvaluationContext ctx clock row tableName
  let jsExpression := convertToJavaScript expression
  safeEval rawEval jsExpression evalContext

/-- The `RLSSimulator` state: mock data, policy set, active session context.
The mock-data object is modelled as an association list with unique table
names (first match wins on lookup). -/
structure RLSSimulator where
  data : List (String × List Row)
  policies : List PolicyDefinition
  context : UserContext

namespace RLSSimulator

/-- `this.data[tableName] || []`. -/
def tableData (sim : RLSSimulator) (tableName : String) : List Row :=
  ((sim.data.find? (fun kv => kv.1 == tableName)).map (fun kv => kv.2)).getD []

/-- `RLSSimulator.getApplicablePolicies`: table match, command match
(`ALL` matches every command), and role match (the active role is in the
policy's roles, or the roles include `public`). -/
def getApplicablePolicies (sim : RLSSimulator) (tableName : String)
    (command : String) : List PolicyDefinition :=
  sim.policies.filter fun policy =>
    if policy.table != tableName then false
    else if policy.command != "ALL" && policy.command != command then false
    else policy.roles.contains sim.context.role || policy.roles.contains "public"

/-- `RLSSimulator.select`: no applicable policy ⇒ all rows; otherwise keep the
rows on which some applicable policy's expression evaluates true. -/
def select (sim : RLSSimulator) (rawEval : String → EvalContext → Option Bool)
    (clock : Clock) (tableName : String) : List Row :=
  let td := sim.tableData tableName
  let applicablePolicies := sim.getApplicablePolicies tableName "SELECT"
  if applicablePolicies.length == 0 then td
  else
    td.filter fun row =>
      applicablePolicies.any fun policy =>
        evaluateExpression rawEval sim.context clock policy.expression row tableName

/-- `RLSSimulator.canInsertOrUpdate`: the union (concatenation) of the
policies applicable to INSERT, UPDATE and ALL; empty ⇒ `true`, otherwise some
member's expression must evaluate true on the candidate row. -/
def canInsertOrUpdate (sim : RLSSimulator)
    (rawEval : String → EvalContext → Option Bool) (clock : Clock)
    (tableName : String) (row : Row) : Bool :=
  let applicablePolicies :=
    sim.getApplicablePolicies tableName "INSERT"
      ++ sim.getApplicablePolicies tableName "UPDATE"
      ++ sim.getApplicablePolicies tableName "ALL"
  if applicablePolicies.length == 0 then true
  else
    applicablePolicies.any fun policy =>
      evaluateExpression rawEval sim.context clock policy.expression row tableName

end RLSSimulator

/-! ## `PolicyIntrospector` row transformation (`introspector.ts`) -/

/-- A raw row from the `pg_policies` introspection query (`PolicyRow`).
`qual`/`with_check` can be SQL `NULL`, modelled as `Option`; the query
aliases `qual as qual_expression` and `with_check as with_check_expression`. -/
structure PolicyRow where
  schemaname : String
  tablename : String
  policyname : String
  permissive : String
  roles : String
  cmd : String
  qual : Option String
  with_check : Option String
  qual_expression : Option String
  with_check_expression : Option String
  table_oid : Int
deriving DecidableEq

/-- `TransformedPolicy` from `introspector.ts` (the `raw` sub-object is
flattened into the three `raw*` fields). -/
structure TransformedPolicy where
  name : String
  table : String
  schema : String
  command : String
  roles : List String
  permissive : Bool
  expression : String
  withCheck : String
  rawQual : Option String
  rawWithCheck : Option String
  rawTableOid : Int
deriving DecidableEq

/-- JS `x || d` for a possibly-`NULL`/missing string field
(`null`/`undefined` and `''` are falsy). -/
def jsOr (v : Option String) (d : String) : String :=
  match v with
  | none => d
  | some s => if s == "" then d else s

/-- `PolicyIntrospector.normalizeCommand`: the one-letter `pg_policies`
command codes; unknown codes pass through (`commandMap[cmd] || cmd`). -/
def normalizeCommand (cmd : String) : String :=
  if cmd == "r" then "SELECT"
  else if cmd == "a" then "INSERT"
  else if cmd == "w" then "UPDATE"
  else if cmd == "d" then "DELETE"
  else if cmd == "*" then "ALL"
  else cmd

/-- `PolicyIntrospector.parseRoles`: strip `{}`, split on commas, trim,
drop empties; a falsy (empty) input yields `[]`. -/
def parseRoles (rolesString : String) : List String :=
  if rolesString == "" then []
  else
    (((splitOnChar ',' (rolesString.data.filter (fun c => !(c == '{' || c == '}')))).map
      (fun role => jsTrim (String.mk role)))).filter (fun role => 0 < role.length)

/-- `PolicyIntrospector.transformPolicyRow`. -/
def transformPolicyRow (row : PolicyRow) : TransformedPolicy :=
  { name := row.policyname
    table := row.tablename
    schema := row.schemaname
    command := normalizeCommand row.cmd
    roles := parseRoles row.roles
    permissive := row.permissive == "PERMISSIVE"
    expression := jsOr row.qual_expression "true"
    withCheck := jsOr row.with_check_expression ""
    rawQual := row.qual
    rawWithCheck := row.with_check
    rawTableOid := row.table_oid }

/-! ## The testing framework (`testPolicies`) -/

/-- A `TestAssertion` of the testing framework.  `row` models the untyped
`(assertion as any).row` read by the INSERT/UPDATE branch. -/
structure TestAssertion where
  context : String
  table : String
  command : String
  expectedRows : Option (List Row)
  expectedCount : Option Nat
  shouldPass : Option Bool
  row : Option Row
deriving DecidableEq

/-- The untyped `actual` / `expected` payloads of a `TestFailure`. -/
inductive TestValue where
  | null
  | rows (rs : List Row)
  | nat (n : Nat)
  | bool (b : Bool)
  | optBool (b : Option Bool)
  | str (s : String)
deriving DecidableEq

/-- A structured `TestFailure` entry. -/
structure TestFailure where
  assertion : TestAssertion
  actual : TestValue
  expected : TestValue
  message : String
deriving DecidableEq

/-- `TestPoliciesConfig`. -/
structure TestPoliciesConfig where
  data : List (String × List Row)
  contexts : List UserContext
  policies : Option (List PolicyDefinition)
  assertions : List TestAssertion

/-- `TestResult`. -/
structure TestResult where
  passed : Bool
  total : Nat
  failures : List TestFailure
deriving DecidableEq

/-- First-match lookup in a row (JS property access; keys are unique). -/
def lookupFirst (r : Row) (k : String) : Option Value :=
  (r.find? (fun kv => kv.1 == k)).map (fun kv => kv.2)

/-- `deepEqual` on two rows (plain objects with unique keys and flat
values): same key count and recursive equality at every key. -/
def rowDeepEqual (a b : Row) : Bool :=
  a.length == b.length && a.all (fun kv => lookupFirst b kv.1 == some kv.2)

/-- `deepEqual` on two row arrays: same length and element-wise `deepEqual`
(array keys are the indices). -/
def rowsDeepEqual (a b : List Row) : Bool :=
  a.length == b.length && (a.zip b).all (fun pr => rowDeepEqual pr.1 pr.2)

/-- The structured failure entry pushed when an assertion's named context is
absent from the supplied context list. -/
def contextMissingFailure (a : TestAssertion) : TestFailure :=
  { assertion := a
    actual := .null
    expected := .str ("context for user " ++ a.context)
    message := "Context not found for user: " ++ a.context }

/-- Execute one assertion against the simulator state (context already
found and set): the `switch (assertion.command)` of `testPolicies`.
Returns the failure entry pushed, if any.  A command with no `case`
(e.g. `DELETE`) falls through without pushing anything. -/
def evalAssertion (rawEval : String → EvalContext → Option Bool) (clock : Clock)
    (data : List (String × List Row)) (policies : List PolicyDefinition)
    (c : UserContext) (a : TestAssertion) : Option TestFailure :=
  let sim : RLSSimulator := { data := data, policies := policies, context := c }
  if a.command == "SELECT" then
    let actualResult := sim.select rawEval clock a.table
    match a.expectedRows with
    | some er =>
      if rowsDeepEqual actualResult er then none
      else some { assertion := a, actual := .rows actualResult, expected := .rows er
                  message := "Row mismatch for " ++ a.context
                    ++ " selecting from " ++ a.table }
    | none =>
      match a.expectedCount with
      | some n =>
        if actualResult.length == n then none
        else some { assertion := a, actual := .nat actualResult.length, expected := .nat n
                    message := "Count mismatch for " ++ a.context
                      ++ " selecting from " ++ a.table }
      | none => none
  else if a.command == "INSERT" || a.command == "UPDATE" then
    let row := a.row.getD []
    let actualResult := sim.canInsertOrUpdate rawEval clock a.table row
    if actualResult == a.shouldPass.getD true then none
    else some { assertion := a, actual := .bool actualResult, expected := .optBool a.shouldPass
                message := "Permission mismatch for " ++ a.context ++ " "
                  ++ jsToLower a.command ++ "ing in " ++ a.table }
  else none

/-- The assertion loop of `testPolicies`: look the context up by `user`
(a missing context pushes a structured failure and continues with the next
assertion), otherwise set it on the simulator and run the assertion. -/
def runAssertions (rawEval : String → EvalContext → Option Bool) (clock : Clock)
    (data : List (String × List Row)) (policies : List PolicyDefinition)
    (contexts : List UserContext) :
    UserContext → List TestAssertion → List TestFailure
  | _, [] => []
  | ctx, a :: rest =>
    match contexts.find? (fun c => c.user == a.context) with
    | none =>
      contextMissingFailure a
        :: runAssertions rawEval clock data policies contexts ctx rest
    | some c =>
      match evalAssertion rawEval clock data policies c a with
      | some f => f :: runAssertions rawEval clock data policies contexts c rest
      | none => runAssertions rawEval clock data policies contexts c rest

/-- `testPolicies`: build the simulator (initial context
`{user:'', role:'public'}`), run every assertion (`total` counts them all),
and report `passed ⟺ zero failures`. -/
def testPolicies (rawEval : String → EvalContext → Option Bool) (clock : Clock)
    (config : TestPoliciesConfig) : TestResult :=
  let failures := runAssertions rawEval clock config.data (config.policies.getD [])
    config.contexts { user := "", role := "public", settings := [] } config.assertions
  { passed := failures.length == 0
    total := config.assertions.length
    failures := failures }

/-! ## The spec-side applicability/permissiveness predicates, and concrete
instances used by counterexamples and witnesses -/

/-- The spec's reading of a policy's PERMISSIVE flag (`permissive = false`
marks a RESTRICTIVE policy; an absent flag defaults to permissive, as in
PostgreSQL).  The simulator's code never reads this field. -/
def isPermissivePolicy (p : PolicyDefinition) : Bool :=
  p.permissive.getD true

/-- The claim C5's applicability condition for writes: the policy's table
matches, its command is `ALL`, `INSERT` or `UPDATE`, and the active role is
in its roles or its roles include `public`. -/
def writeApplicable (sim : RLSSimulator) (tableName : String) (p : PolicyDefinition) : Prop :=
  p.table = tableName
    ∧ (p.command = "ALL" ∨ p.command = "INSERT" ∨ p.command = "UPDATE")
    ∧ (sim.context.role ∈ p.roles ∨ "public" ∈ p.roles)

/-- An evaluator that accepts exactly the translated literal `true`
(it never throws). -/
def rawEvalTrue : String → EvalContext → Option Bool :=
  fun s _ => some (s == "true")

/-- An evaluator that always throws. -/
def rawEvalNone : String → EvalContext → Option Bool :=
  fun _ _ => none

/-- A fixed clock reading. -/
def clock0 : Clock := { now := 0, currentDate := 0 }

/-- A RESTRICTIVE policy granting SELECT on `docs` to everyone. -/
def polC1 : PolicyDefinition :=
  { name := "restrict_read", table := "docs", command := "SELECT"
    roles := ["public"], expression := "true", permissive := some false }

/-- The single mock row of table `docs`. -/
def rowC1 : Row := [("id", Value.num 1)]

/-- A simulator holding one `docs` row and only the RESTRICTIVE policy. -/
def simC1 : RLSSimulator :=
  { data := [("docs", [rowC1])], policies := [polC1]
    context := { user := "", role := "public", settings := [] } }

/-- A test assertion naming a context absent from the context list. -/
def aGhost : TestAssertion :=
  { context := "ghost", table := "t", command := "SELECT"
    expectedRows := none, expectedCount := some 0, shouldPass := none, row := none }

/-- A test assertion naming the present context `u1`. -/
def aOk : TestAssertion :=
  { context := "u1", table := "t", command := "SELECT"
    expectedRows := none, expectedCount := some 0, shouldPass := none, row := none }

/-- A test configuration whose first assertion names a missing context. -/
def cfgC8 : TestPoliciesConfig :=
  { data := [("t", [])]
    contexts := [{ user := "u1", role := "authenticated", settings := [] }]
    policies := none
    assertions := [aGhost, aOk] }

/-! ## Supporting lemmas: the split machinery -/

theorem matchLitCi_length {pat l r : List Char} (h : matchLitCi pat l = some r) :
    r.length + pat.length = l.length := by
  induction pat generalizing l with
  | nil =>
    simp only [matchLitCi] at h
    simp [← Option.some_inj.mp h]
  | cons p ps ih =>
    cases l with
    | nil => simp [matchLitCi] at h
    | cons c cs =>
      simp only [matchLitCi] at h
      split at h
      · have := ih h
        simp only [List.length_cons]
        omega
      · exact absurd h (by simp)

theorem sepMatchAt_length {l r : List Char} (h : sepMatchAt l = some r) :
    r.length < l.length := by
  simp only [sepMatchAt] at h
  split at h
  · exact absurd h (by simp)
  · rename_i hne
    have hws : 0 < (l.takeWhile isSpaceChar).length := by
      rcases Nat.eq_zero_or_pos (l.takeWhile isSpaceChar).length with h0 | h0
      · exact absurd (List.isEmpty_iff.mpr (List.length_eq_zero.mp h0)) (by simpa using hne)
      · exact h0
    have hwsle : (l.takeWhile isSpaceChar).length ≤ l.length :=
      (List.takeWhile_sublist isSpaceChar).length_le
    have hdrop : (l.drop (l.takeWhile isSpaceChar).length).length < l.length := by
      rw [List.length_drop]; omega
    revert h
    split
    · rename_i r2 hand
      have h2 := matchLitCi_length hand
      intro h
      split at h
      · exact absurd h (by simp)
      · have hr : r = r2.drop (r2.takeWhile isSpaceChar).length := by
          simpa using (Option.some_inj.mp h).symm
        rw [hr, List.length_drop]
        simp only [List.length_drop] at h2 ⊢
        omega
    · split
      · rename_i r2 hor
        have h2 := matchLitCi_length hor
        intro h
        split at h
        · exact absurd h (by simp)
        · have hr : r = r2.drop (r2.takeWhile isSpaceChar).length := by
            simpa using (Option.some_inj.mp h).symm
          rw [hr, List.length_drop]
          simp only [List.length_drop] at h2 ⊢
          omega
      · intro h; exact absurd h (by simp)

theorem findSep_length : ∀ {l pre rest : List Char},
    findSep l = some (pre, rest) →
    rest.length < l.length ∧ pre.length < l.length := by
  intro l
  induction l with
  | nil => intro pre rest h; simp [findSep] at h
  | cons c cs ih =>
    intro pre rest h
    simp only [findSep] at h
    split at h
    · rename_i r hm
      have hpr := Option.some_inj.mp h
      have hpre : pre = [] := (congrArg Prod.fst hpr).symm
      have hrest : rest = r := (congrArg Prod.snd hpr).symm
      subst hpre; subst hrest
      exact ⟨sepMatchAt_length hm, by simp⟩
    · cases hf : findSep cs with
      | none => rw [hf] at h; simp at h
      | some pr =>
        rw [hf] at h
        obtain ⟨p0, r0⟩ := pr
        simp only [Option.map] at h
        have hpr := Option.some_inj.mp h
        have hpre : pre = c :: p0 := (congrArg Prod.fst hpr).symm
        have hrest : rest = r0 := (congrArg Prod.snd hpr).symm
        subst hpre; subst hrest
        obtain ⟨ih1, ih2⟩ := ih hf
        exact ⟨Nat.lt_succ_of_lt ih1, by simpa using Nat.succ_lt_succ ih2⟩

theorem splitPartsF_of_none {l : List Char} (h : findSep l = none) :
    ∀ fuel, splitPartsF fuel l = [l] := by
  intro fuel
  cases fuel with
  | zero => rfl
  | succ f => simp [splitPartsF, h]

theorem splitPartsF_suff : ∀ (f g : Nat) (l : List Char),
    l.length < f → l.length < g → splitPartsF f l = splitPartsF g l := by
  intro f
  induction f with
  | zero => intro g l hf; omega
  | succ f ih =>
    intro g l hf hg
    cases g with
    | zero => omega
    | succ g =>
      simp only [splitPartsF]
      cases hs : findSep l with
      | none => rfl
      | some pr =>
        obtain ⟨pre, rest⟩ := pr
        have hlen := (findSep_length hs).1
        simp only []
        rw [ih g rest (by omega) (by omega)]

theorem splitParts_eq (l : List Char) :
    splitParts l = (match findSep l with
      | none => [l]
      | some (pre, rest) => pre :: splitParts rest) := by
  show splitPartsF (l.length + 1) l = _
  simp only [splitPartsF]
  cases hs : findSep l with
  | none => rfl
  | some pr =>
    obtain ⟨pre, rest⟩ := pr
    have hlen := (findSep_length hs).1
    simp only []
    rw [splitPartsF_suff l.length (rest.length + 1) rest (by omega) (by omega)]
    rfl

theorem mem_splitPartsF_length : ∀ (f : Nat) (l p : List Char),
    l.length < f → p ∈ splitPartsF f l → (findSep l).isSome →
    p.length < l.length := by
  intro f
  induction f with
  | zero => intro l p hf; omega
  | succ f ih =>
    intro l p hf hp hs
    cases hfs : findSep l with
    | none => rw [hfs] at hs; simp at hs
    | some pr =>
      obtain ⟨pre, rest⟩ := pr
      obtain ⟨h1, h2⟩ := findSep_length hfs
      simp only [splitPartsF, hfs] at hp
      rcases List.mem_cons.mp hp with hpp | hpp
      · rw [hpp]; omega
      · cases hrs : findSep rest with
        | none =>
          rw [splitPartsF_of_none hrs] at hpp
          have hpr : p = rest := by simpa using hpp
          rw [hpr]; omega
        | some =>
          have := ih rest p (by omega) hpp (by rw [hrs]; rfl)
          omega

theorem mem_splitParts_length {l p : List Char}
    (hp : p ∈ splitParts l) (hs : (findSep l).isSome) :
    p.length < l.length :=
  mem_splitPartsF_length (l.length + 1) l p (by omega) hp hs

/-! ## Supporting lemmas: `includes` implies the split regex matches -/

theorem startsWithSeq_exists : ∀ {pat l : List Char},
    startsWithSeq pat l = true → ∃ b, l = pat ++ b := by
  intro pat
  induction pat with
  | nil => intro l _; exact ⟨l, rfl⟩
  | cons p ps ih =>
    intro l h
    cases l with
    | nil => simp [startsWithSeq] at h
    | cons c cs =>
      simp only [startsWithSeq, Bool.and_eq_true, beq_iff_eq] at h
      obtain ⟨rfl, h2⟩ := h
      obtain ⟨b, rfl⟩ := ih h2
      exact ⟨b, rfl⟩

theorem containsSeq_exists : ∀ {pat l : List Char},
    containsSeq pat l = true → ∃ a b, l = a ++ pat ++ b := by
  intro pat l
  induction l with
  | nil =>
    intro h
    simp only [containsSeq] at h
    obtain ⟨b, hb⟩ := startsWithSeq_exists h
    exact ⟨[], b, hb⟩
  | cons c cs ih =>
    intro h
    simp only [containsSeq, Bool.or_eq_true] at h
    rcases h with h | h
    · obtain ⟨b, hb⟩ := startsWithSeq_exists h
      exact ⟨[], b, by simpa using hb⟩
    · obtain ⟨a, b, hb⟩ := ih h
      exact ⟨c :: a, b, by simp [hb]⟩

theorem sepMatchAt_and (b : List Char) :
    (sepMatchAt (' ' :: 'A' :: 'N' :: 'D' :: ' ' :: b)).isSome := by
  simp [sepMatchAt, List.takeWhile_cons, isSpaceChar, matchLitCi]

theorem sepMatchAt_or (b : List Char) :
    (sepMatchAt (' ' :: 'O' :: 'R' :: ' ' :: b)).isSome := by
  simp [sepMatchAt, List.takeWhile_cons, isSpaceChar, matchLitCi]

theorem findSep_isSome_of_sepMatchAt : ∀ (a : List Char) {c : Char} {cs : List Char},
    (sepMatchAt (c :: cs)).isSome → (findSep (a ++ c :: cs)).isSome := by
  intro a
  induction a with
  | nil =>
    intro c cs h
    cases hm : sepMatchAt (c :: cs) with
    | none => rw [hm] at h; simp at h
    | some r => simp [findSep, hm]
  | cons x a ih =>
    intro c cs h
    simp only [List.cons_append, findSep]
    cases hm : sepMatchAt (x :: (a ++ c :: cs)) with
    | none => simpa using ih h
    | some r => rfl

theorem hasConnective_findSep {e : String} (h : hasConnective e = true) :
    (findSep e.data).isSome := by
  simp only [hasConnective, Bool.or_eq_true] at h
  rcases h with h | h
  · obtain ⟨a, b, hb⟩ := containsSeq_exists h
    rw [hb, List.append_assoc]
    exact findSep_isSome_of_sepMatchAt a (sepMatchAt_and b)
  · obtain ⟨a, b, hb⟩ := containsSeq_exists h
    rw [hb, List.append_assoc]
    exact findSep_isSome_of_sepMatchAt a (sepMatchAt_or b)

/-! ## Supporting lemmas: `minConf` (`Math.min` over child confidences) -/

theorem foldl_min_le_init : ∀ (cs : List ℚ) (c : ℚ), cs.foldl min c ≤ c := by
  intro cs
  induction cs with
  | nil => intro c; exact le_refl c
  | cons x xs ih =>
    intro c
    exact le_trans (ih (min c x)) (min_le_left c x)

theorem foldl_min_le_mem {x : ℚ} : ∀ (cs : List ℚ) (c : ℚ), x ∈ cs →
    cs.foldl min c ≤ x := by
  intro cs
  induction cs with
  | nil => intro c h; simp at h
  | cons y ys ih =>
    intro c h
    rcases List.mem_cons.mp h with rfl | h
    · exact le_trans (foldl_min_le_init ys (min c x)) (min_le_right c x)
    · exact ih (min c y) h

theorem le_foldl_min {b : ℚ} : ∀ (cs : List ℚ) (c : ℚ), b ≤ c →
    (∀ x ∈ cs, b ≤ x) → b ≤ cs.foldl min c := by
  intro cs
  induction cs with
  | nil => intro c hc _; exact hc
  | cons y ys ih =>
    intro c hc h
    exact ih (min c y) (le_min hc (h y (by simp))) (fun x hx => h x (by simp [hx]))

theorem minConf_le_mem {x : ℚ} {l : List ℚ} (h : x ∈ l) : minConf l ≤ x := by
  cases l with
  | nil => simp at h
  | cons c cs =>
    rcases List.mem_cons.mp h with rfl | h
    · exact foldl_min_le_init cs x
    · exact foldl_min_le_mem cs c h

theorem minConf_nonneg {l : List ℚ} (h : ∀ x ∈ l, 0 ≤ x) : 0 ≤ minConf l := by
  cases l with
  | nil => exact le_refl 0
  | cons c cs =>
    exact le_foldl_min cs c (h c (by simp)) (fun x hx => h x (by simp [hx]))

/-! ## Supporting lemmas: `parseExpression` fuel elimination and bounds -/

theorem length_mkStr (l : List Char) : (String.mk l).length = l.length := rfl

theorem length_data (e : String) : e.data.length = e.length := rfl

theorem parseExpressionF_suff : ∀ (f g : Nat) (e : String),
    e.length < f → e.length < g → parseExpressionF f e = parseExpressionF g e := by
  intro f
  induction f with
  | zero => intro g e hf; omega
  | succ f ih =>
    intro g e hf hg
    cases g with
    | zero => omega
    | succ g =>
      simp only [parseExpressionF]
      split
      · rfl
      · split
        · rfl
        · split
          · rfl
          · split
            · rfl
            · split
              · rename_i hconn
                have hmap :
                    (splitParts e.data).map (fun p => parseExpressionF f (String.mk p))
                      = (splitParts e.data).map (fun p => parseExpressionF g (String.mk p)) := by
                  refine List.map_congr_left (fun p hp => ?_)
                  have hlt : p.length < e.length := by
                    rw [← length_data]
                    exact mem_splitParts_length hp (hasConnective_findSep hconn)
                  exact ih g (String.mk p) (by rw [length_mkStr]; omega)
                    (by rw [length_mkStr]; omega)
                simp only [hmap]
              · rfl

theorem parseExpressionF_eq_parseExpression {f : Nat} {e : String}
    (h : e.length < f) : parseExpressionF f e = parseExpression e :=
  parseExpressionF_suff f (e.length + 1) e h (Nat.lt_succ_self _)

/-- Under the guards the source checks before calling
`parseComplexExpression` (non-empty, not a boolean literal, no idiom
matched, the case-sensitive connective check succeeded), `parseExpression`
delegates to `parseComplexExpression`. -/
theorem parseExpression_complex_branch {e : String}
    (h1 : (jsTrim e == "") = false)
    (h2 : (jsToLower (jsTrim e) == "true") = false)
    (h3 : (jsToLower (jsTrim e) == "false") = false)
    (h4 : idiomMatch e = none)
    (h5 : hasConnective e = true) :
    parseExpression e = parseComplexExpression e := by
  show parseExpressionF (e.length + 1) e = _
  simp only [parseExpressionF, h1, h2, h3, h4, h5, Bool.false_eq_true, if_false, if_true]
  have hmap :
      (splitParts e.data).map (fun p => parseExpressionF e.length (String.mk p))
        = (splitParts e.data).map (fun p => parseExpression (String.mk p)) := by
    refine List.map_congr_left (fun p hp => ?_)
    have hlt : p.length < e.length := by
      rw [← length_data]
      exact mem_splitParts_length hp (hasConnective_findSep h5)
    exact parseExpressionF_eq_parseExpression (by rw [length_mkStr]; omega)
  simp only [hmap, parseComplexExpression, complexConditions]

theorem idiomMatch_confidence {e : String} {r : ParsedExpr}
    (h : idiomMatch e = some r) :
    r.confidence = 0.9 ∨ r.confidence = 0.8 ∨ r.confidence = 0.6 := by
  simp only [idiomMatch] at h
  repeat' split at h
  all_goals (try (cases Option.some_inj.mp h; simp [ParsedExpr.confidence]))
  all_goals simp at h

theorem parseExpressionF_conf_bounds : ∀ (f : Nat) (e : String),
    0 ≤ (parseExpressionF f e).confidence ∧ (parseExpressionF f e).confidence ≤ 1 := by
  intro f
  induction f with
  | zero =>
    intro e
    constructor <;> simp [parseExpressionF, ParsedExpr.confidence]
  | succ f ih =>
    intro e
    simp only [parseExpressionF]
    split
    · constructor <;> simp [ParsedExpr.confidence]
    · split
      · constructor <;> simp [ParsedExpr.confidence]
      · split
        · constructor <;> simp [ParsedExpr.confidence]
        · split
          · rename_i r him
            rcases idiomMatch_confidence him with hc | hc | hc <;>
              (rw [hc]; constructor <;> norm_num)
          · split
            · split
              · rename_i hlen
                set conditions :=
                  ((splitParts e.data).map (fun p => parseExpressionF f (String.mk p))).filter
                    (fun c => !(c.helper == "custom")) with hcond
                have hall : ∀ x ∈ conditions.map ParsedExpr.confidence, 0 ≤ x ∧ x ≤ 1 := by
                  intro x hx
                  obtain ⟨c, hc, rfl⟩ := List.mem_map.mp hx
                  obtain ⟨c2, hc2, rfl⟩ :=
                    List.mem_map.mp (List.mem_filter.mp (hcond ▸ hc)).1
                  exact ih (String.mk c2)
                have h0 : 0 ≤ minConf (conditions.map ParsedExpr.confidence) :=
                  minConf_nonneg (fun x hx => (hall x hx).1)
                obtain ⟨c0, hc0⟩ : ∃ c0, c0 ∈ conditions :=
                  List.exists_mem_of_ne_nil conditions
                    (by intro hnil; rw [hnil] at hlen; simp at hlen)
                have hm1 : minConf (conditions.map ParsedExpr.confidence) ≤ 1 :=
                  le_trans (minConf_le_mem (List.mem_map_of_mem ParsedExpr.confidence hc0))
                    (hall _ (List.mem_map_of_mem ParsedExpr.confidence hc0)).2
                constructor
                · simp only [ParsedExpr.confidence]
                  positivity
                · simp only [ParsedExpr.confidence]
                  calc minConf (conditions.map ParsedExpr.confidence) * 0.8
                      ≤ 1 * 1 := by
                        apply mul_le_mul hm1 (by norm_num) (by norm_num) (by norm_num)
                    _ = 1 := by norm_num
              · constructor <;> simp [ParsedExpr.confidence]
            · constructor <;> simp [ParsedExpr.confidence]

/-! ## Supporting lemmas: `objGet` -/

theorem foldl_objGet_none {k : String} : ∀ (l : List (String × String)) (acc : Option String),
    (∀ kv ∈ l, (kv.1 == k) = false) →
    l.foldl (fun acc kv => if kv.1 == k then some kv.2 else acc) acc = acc := by
  intro l
  induction l with
  | nil => intro acc _; rfl
  | cons x xs ih =>
    intro acc h
    simp only [List.foldl_cons, h x (by simp), if_false, Bool.false_eq_true]
    exact ih acc (fun kv hkv => h kv (by simp [hkv]))

theorem objGet_eq_none {l : List (String × String)} {k : String}
    (h : ∀ kv ∈ l, (kv.1 == k) = false) : objGet l k = none :=
  foldl_objGet_none l none h

/-- C9: for a session context and a key that is neither one of the three
derived keys nor present in the context's settings, the emulated
`current_setting` returns the empty string (no error), and consequently any
comparison of it against a non-empty literal is false. -/
theorem currentSetting_missing_key_empty (ctx : UserContext) (key : String)
    (h1 : key ≠ "app.current_user_id") (h2 : key ≠ "app.user_role")
    (h3 : key ≠ "app.tenant_id")
    (h4 : ∀ kv ∈ ctx.settings, kv.1 ≠ key) :
    currentSettingOf ctx key = ""
      ∧ ∀ lit : String, lit ≠ "" → (currentSettingOf ctx key == lit) = false := by
  have hnone : objGet (settingsObject ctx) key = none := by
    refine objGet_eq_none (fun kv hkv => ?_)
    simp only [settingsObject, List.mem_append, List.mem_cons, List.not_mem_nil,
      or_false] at hkv
    rcases hkv with (rfl | rfl | rfl) | hkv
    · exact beq_eq_false_iff_ne.mpr (fun hc => h1 hc.symm)
    · exact beq_eq_false_iff_ne.mpr (fun hc => h2 hc.symm)
    · exact beq_eq_false_iff_ne.mpr (fun hc => h3 hc.symm)
    · exact beq_eq_false_iff_ne.mpr (h4 kv hkv)
  have hmain : currentSettingOf ctx key = "" := by
    simp [currentSettingOf, hnone]
  exact ⟨hmain, fun lit hlit => by
    rw [hmain]; exact beq_eq_false_iff_ne.mpr (Ne.symm hlit)⟩

/-- C9 witness: a concrete context and missing key. -/
theorem currentSetting_missing_key_empty_witness :
    currentSettingOf { user := "u1", role := "admin", settings := [("custom.flag", "on")] }
      "app.other_setting" = ""
    ∧ (currentSettingOf { user := "u1", role := "admin", settings := [("custom.flag", "on")] }
        "app.other_setting" == "expected") = false := by
  have h := currentSetting_missing_key_empty
    { user := "u1", role := "admin", settings := [("custom.flag", "on")] }
    "app.other_setting" (by decide) (by decide) (by decide) (by decide)
  exact ⟨h.1, h.2 "expected" (by decide)⟩

/-- C10: a raw policy row whose `qual` is SQL `NULL` or empty gets
`expression = 'true'` (and `withCheck = ''` when `with_check` is `NULL`),
and `'true'` classifies downstream as `publicAccess` with confidence 1. -/
theorem transformPolicyRow_null_qual (row : PolicyRow)
    (heq : row.qual_expression = row.qual)
    (h1 : row.qual = none ∨ row.qual = some "")
    (h2 : row.with_check_expression = none) :
    (transformPolicyRow row).expression = "true"
      ∧ (transformPolicyRow row).withCheck = ""
      ∧ (parseExpression (transformPolicyRow row).expression).helper = "publicAccess"
      ∧ (parseExpression (transformPolicyRow row).expression).confidence = 1 := by
  have he : (transformPolicyRow row).expression = "true" := by
    simp only [transformPolicyRow, heq]
    rcases h1 with h | h <;> simp [h, jsOr]
  refine ⟨he, ?_, ?_, ?_⟩
  · simp [transformPolicyRow, h2, jsOr]
  · rw [he]; decide
  · rw [he]; decide

/-- C10 witness: a concrete row extracted without USING or WITH CHECK. -/
theorem transformPolicyRow_null_qual_witness :
    (transformPolicyRow
      { schemaname := "public", tablename := "posts", policyname := "open_read"
        permissive := "PERMISSIVE", roles := "{public}", cmd := "r"
        qual := none, with_check := none, qual_expression := none
        with_check_expression := none, table_oid := 101 }).expression = "true"
    ∧ (transformPolicyRow
        { schemaname := "public", tablename := "posts", policyname := "open_read"
          permissive := "PERMISSIVE", roles := "{public}", cmd := "r"
          qual := none, with_check := none, qual_expression := none
          with_check_expression := none, table_oid := 101 }).withCheck = ""
    ∧ (parseExpression (transformPolicyRow
        { schemaname := "public", tablename := "posts", policyname := "open_read"
          permissive := "PERMISSIVE", roles := "{public}", cmd := "r"
          qual := none, with_check := none, qual_expression := none
          with_check_expression := none, table_oid := 101 }).expression).helper
        = "publicAccess" := by
  have h := transformPolicyRow_null_qual
    { schemaname := "public", tablename := "posts", policyname := "open_read"
      permissive := "PERMISSIVE", roles := "{public}", cmd := "r"
      qual := none, with_check := none, qual_expression := none
      with_check_expression := none, table_oid := 101 }
    rfl (Or.inl rfl) rfl
  exact ⟨h.1, h.2.1, h.2.2.1⟩

/-- C6: every input classified in one of the confidence-1.0 branches (empty
or whitespace-only, the literal `true`, the literal `false`, all after
trimming and case-folding) classifies as `publicAccess` resp. `noAccess`
with confidence 1, and rendering the classification yields the
corresponding zero-argument helper call. -/
theorem confidence_one_roundtrip (s : String)
    (h : jsTrim s = "" ∨ jsToLower (jsTrim s) = "true" ∨ jsToLower (jsTrim s) = "false") :
    (parseExpression s).confidence = 1
      ∧ generateHelperCall (parseExpression s) = (parseExpression s).helper ++ "()"
      ∧ (parseExpression s).helper
          = (if jsToLower (jsTrim s) = "false" then "noAccess" else "publicAccess") := by
  rcases h with htrim | htl | htl
  · have hb : (jsTrim s == "") = true := beq_iff_eq.mpr htrim
    have hps : parseExpression s = .mk "publicAccess" .none s 1 none [] := by
      show parseExpressionF (s.length + 1) s = _
      simp only [parseExpressionF, hb, if_true]
    rw [hps]
    refine ⟨rfl, rfl, ?_⟩
    rw [htrim, if_neg (by decide : ¬(jsToLower "" = "false"))]
    rfl
  · have htr : (jsTrim s == "") = false := by
      refine beq_eq_false_iff_ne.mpr (fun hc => ?_)
      rw [hc] at htl
      exact absurd htl (by decide)
    have hb : (jsToLower (jsTrim s) == "true") = true := beq_iff_eq.mpr htl
    have hps : parseExpression s = .mk "publicAccess" .none s 1 none [] := by
      show parseExpressionF (s.length + 1) s = _
      simp only [parseExpressionF, htr, hb, Bool.false_eq_true, if_false, if_true]
    rw [hps]
    refine ⟨rfl, rfl, ?_⟩
    rw [htl, if_neg (by decide : ¬(("true" : String) = "false"))]
    rfl
  · have htr : (jsTrim s == "") = false := by
      refine beq_eq_false_iff_ne.mpr (fun hc => ?_)
      rw [hc] at htl
      exact absurd htl (by decide)
    have hbt : (jsToLower (jsTrim s) == "true") = false := by
      rw [htl]; decide
    have hb : (jsToLower (jsTrim s) == "false") = true := beq_iff_eq.mpr htl
    have hps : parseExpression s = .mk "noAccess" .none s 1 none [] := by
      show parseExpressionF (s.length + 1) s = _
      simp only [parseExpressionF, htr, hbt, hb, Bool.false_eq_true, if_false, if_true]
    rw [hps]
    refine ⟨rfl, rfl, ?_⟩
    rw [htl, if_pos rfl]
    rfl

/-- C6 witness: the literal `False` (case-folded `false`). -/
theorem confidence_one_roundtrip_witness :
    (parseExpression "False").confidence = 1
      ∧ generateHelperCall (parseExpression "False") = (parseExpression "False").helper ++ "()"
      ∧ (parseExpression "False").helper
          = (if jsToLower (jsTrim "False") = "false" then "noAccess" else "publicAccess") :=
  confidence_one_roundtrip "False" (by right; right; decide)

/-! ## Supporting lemmas: the interval matcher on a digit run -/

theorem takeWhile_append_cons (p : Char → Bool) :
    ∀ (l : List Char) (x : Char) (xs : List Char),
    (∀ c ∈ l, p c = true) → p x = false →
    (l ++ x :: xs).takeWhile p = l := by
  intro l
  induction l with
  | nil => intro x xs _ hx; simp [List.takeWhile_cons, hx]
  | cons c cs ih =>
    intro x xs hall hx
    simp only [List.cons_append, List.takeWhile_cons, hall c (by simp), if_true]
    rw [ih x xs (fun d hd => hall d (by simp [hd])) hx]

theorem intervalMatchAt_digits {ds : List Char} (h1 : ds ≠ [])
    (h2 : ∀ c ∈ ds, isDigitChar c = true) {us : List Char} {u : String}
    (hu : matchIntervalUnit us = some u)
    (hns : us.takeWhile isSpaceChar = []) :
    intervalMatchAt (ds ++ ' ' :: us) = some (digitsVal ds, u) := by
  have hds : (ds ++ ' ' :: us).takeWhile isDigitChar = ds :=
    takeWhile_append_cons isDigitChar ds ' ' us h2 (by decide)
  have hdrop : (ds ++ ' ' :: us).drop ds.length = ' ' :: us := List.drop_left ds (' ' :: us)
  have hws : (' ' :: us).takeWhile isSpaceChar = [' '] := by
    simp [List.takeWhile_cons, isSpaceChar, hns]
  simp only [intervalMatchAt, hds, List.isEmpty_eq_false.mpr h1, Bool.false_eq_true,
    if_false, hdrop, hws, List.length_cons, List.length_nil, List.drop_succ_cons,
    List.drop_zero, hu]
  simp [List.isEmpty_iff]

theorem intervalSearch_digits {ds : List Char} (h1 : ds ≠ [])
    (h2 : ∀ c ∈ ds, isDigitChar c = true) {us : List Char} {u : String}
    (hu : matchIntervalUnit us = some u)
    (hns : us.takeWhile isSpaceChar = []) :
    intervalSearch (ds ++ ' ' :: us) = some (digitsVal ds, u) := by
  cases ds with
  | nil => exact absurd rfl h1
  | cons d0 ds2 =>
    have hm := intervalMatchAt_digits h1 h2 hu hns
    rw [List.cons_append] at hm ⊢
    simp only [intervalSearch, hm]

/-- C7: the emulated `interval` helper maps `N day(s)` to N·86400000 ms,
`N hour(s)` to N·3600000 ms, `N minute(s)` to N·60000 ms (for any digit run
N, in either singular or plural), and any argument in which the amount-unit
regex finds no match — in particular an unrecognized unit — to 0. -/
theorem intervalVal_spec (ds : List Char) (h1 : ds ≠ [])
    (h2 : ∀ c ∈ ds, isDigitChar c = true) :
    (intervalVal (String.mk (ds ++ " day".data)) = (digitsVal ds : Int) * 86400000
      ∧ intervalVal (String.mk (ds ++ " days".data)) = (digitsVal ds : Int) * 86400000)
    ∧ (intervalVal (String.mk (ds ++ " hour".data)) = (digitsVal ds : Int) * 3600000
      ∧ intervalVal (String.mk (ds ++ " hours".data)) = (digitsVal ds : Int) * 3600000)
    ∧ (intervalVal (String.mk (ds ++ " minute".data)) = (digitsVal ds : Int) * 60000
      ∧ intervalVal (String.mk (ds ++ " minutes".data)) = (digitsVal ds : Int) * 60000)
    ∧ (∀ s : String, intervalSearch s.data = none → intervalVal s = 0)
    ∧ intervalVal "12 weeks" = 0 := by
  refine ⟨⟨?_, ?_⟩, ⟨?_, ?_⟩, ⟨?_, ?_⟩, ?_, by decide⟩
  · show intervalVal (String.mk (ds ++ (' ' :: "day".data))) = _
    have hs := intervalSearch_digits h1 h2
      (by decide : matchIntervalUnit "day".data = some "day") (by decide)
    simp only [intervalVal, hs]
    rw [if_pos (by decide)]
    norm_num
  · show intervalVal (String.mk (ds ++ (' ' :: "days".data))) = _
    have hs := intervalSearch_digits h1 h2
      (by decide : matchIntervalUnit "days".data = some "days") (by decide)
    simp only [intervalVal, hs]
    rw [if_pos (by decide)]
    norm_num
  · show intervalVal (String.mk (ds ++ (' ' :: "hour".data))) = _
    have hs := intervalSearch_digits h1 h2
      (by decide : matchIntervalUnit "hour".data = some "hour") (by decide)
    simp only [intervalVal, hs]
    rw [if_neg (by decide), if_pos (by decide)]
    norm_num
  · show intervalVal (String.mk (ds ++ (' ' :: "hours".data))) = _
    have hs := intervalSearch_digits h1 h2
      (by decide : matchIntervalUnit "hours".data = some "hours") (by decide)
    simp only [intervalVal, hs]
    rw [if_neg (by decide), if_pos (by decide)]
    norm_num
  · show intervalVal (String.mk (ds ++ (' ' :: "minute".data))) = _
    have hs := intervalSearch_digits h1 h2
      (by decide : matchIntervalUnit "minute".data = some "minute") (by decide)
    simp only [intervalVal, hs]
    rw [if_neg (by decide), if_neg (by decide), if_pos (by decide)]
    norm_num
  · show intervalVal (String.mk (ds ++ (' ' :: "minutes".data))) = _
    have hs := intervalSearch_digits h1 h2
      (by decide : matchIntervalUnit "minutes".data = some "minutes") (by decide)
    simp only [intervalVal, hs]
    rw [if_neg (by decide), if_neg (by decide), if_pos (by decide)]
    norm_num
  · intro s hnone
    simp [intervalVal, hnone]

/-- C7 witness: `30 days`, `7 hours`, `45 minutes` concretely. -/
theorem intervalVal_spec_witness :
    intervalVal (String.mk ("30".data ++ " days".data)) = (digitsVal "30".data : Int) * 86400000
    ∧ intervalVal (String.mk ("7".data ++ " hours".data)) = (digitsVal "7".data : Int) * 3600000
    ∧ intervalVal (String.mk ("45".data ++ " minutes".data))
        = (digitsVal "45".data : Int) * 60000 :=
  ⟨(intervalVal_spec "30".data (by decide) (by decide)).1.2,
   (intervalVal_spec "7".data (by decide) (by decide)).2.1.2,
   (intervalVal_spec "45".data (by decide) (by decide)).2.2.1.2⟩

/-! ## Claims C2 and C3: the complex-expression classifier -/

theorem parseExpression_conf_bounds (e : String) :
    0 ≤ (parseExpression e).confidence ∧ (parseExpression e).confidence ≤ 1 :=
  parseExpressionF_conf_bounds (e.length + 1) e

/-- C2 counterexample: `a = b AND c % d` contains `' AND '` and its side
`a = b` matches the known idiom `ownerOnly`; yet `classify` returns
`ownerOnly` (the unanchored idiom regex already matches the whole
expression), not `complex`. -/
theorem complex_confidence_counterexample :
    containsSeq " AND ".data ("a = b AND c % d").data = true
      ∧ "a = b" ∈ (splitParts ("a = b AND c % d").data).map String.mk
      ∧ (idiomMatch "a = b").isSome = true
      ∧ (parseExpression "a = b AND c % d").helper = "ownerOnly"
      ∧ ¬((parseExpression "a = b AND c % d").helper = "complex") := by
  refine ⟨by decide, by decide, by decide, by decide, ?_⟩
  intro h
  rw [show (parseExpression "a = b AND c % d").helper = "ownerOnly" from by decide] at h
  exact absurd h (by decide)

/-- C2 (amended): for every expression that reaches the complex branch —
it is non-empty, not a boolean literal, matches no idiom as a whole, and
contains the (case-sensitive) connective `' AND '` or `' OR '` — with at
least one connective-separated side classifying as non-`custom`, `classify`
returns `pattern = "complex"` holding those children, with confidence equal
to the minimum child confidence times 0.8, hence never higher than any
child's confidence. -/
theorem complex_confidence (e : String)
    (h1 : (jsTrim e == "") = false)
    (h2 : (jsToLower (jsTrim e) == "true") = false)
    (h3 : (jsToLower (jsTrim e) == "false") = false)
    (h4 : idiomMatch e = none)
    (h5 : hasConnective e = true)
    (h6 : complexConditions e ≠ []) :
    (parseExpression e).helper = "complex"
      ∧ (parseExpression e).confidence
          = minConf ((complexConditions e).map ParsedExpr.confidence) * 0.8
      ∧ (parseExpression e).conditions = complexConditions e
      ∧ ∀ c ∈ complexConditions e,
          (parseExpression e).confidence ≤ c.confidence := by
  have hpe := parseExpression_complex_branch h1 h2 h3 h4 h5
  have hlen : 0 < (complexConditions e).length := List.length_pos.mpr h6
  have hcx : parseComplexExpression e
      = .mk "complex" .none e
          (minConf ((complexConditions e).map ParsedExpr.confidence) * 0.8) none
          (complexConditions e) := by
    simp only [parseComplexExpression, hlen, if_pos]
  rw [hpe, hcx]
  refine ⟨rfl, rfl, rfl, ?_⟩
  intro c hc
  have hall : ∀ x ∈ (complexConditions e).map ParsedExpr.confidence, 0 ≤ x := by
    intro x hx
    obtain ⟨c2, hc2, rfl⟩ := List.mem_map.mp hx
    obtain ⟨p, _, rfl⟩ := List.mem_map.mp (List.mem_filter.mp hc2).1
    exact (parseExpression_conf_bounds (String.mk p)).1
  have hmin0 : 0 ≤ minConf ((complexConditions e).map ParsedExpr.confidence) :=
    minConf_nonneg hall
  have hle : minConf ((complexConditions e).map ParsedExpr.confidence) ≤ c.confidence :=
    minConf_le_mem (List.mem_map_of_mem ParsedExpr.confidence hc)
  show minConf ((complexConditions e).map ParsedExpr.confidence) * 0.8 ≤ c.confidence
  calc minConf ((complexConditions e).map ParsedExpr.confidence) * 0.8
      ≤ minConf ((complexConditions e).map ParsedExpr.confidence) :=
        mul_le_of_le_one_right hmin0 (by norm_num)
    _ ≤ c.confidence := hle

/-- C2 witness: `true AND x%` reaches the complex branch; its side `true`
classifies as `publicAccess` (confidence 1), so the result is `complex`
with confidence 0.8. -/
theorem complex_confidence_witness :
    (parseExpression "true AND x%").helper = "complex"
      ∧ (parseExpression "true AND x%").confidence
          = minConf ((complexConditions "true AND x%").map ParsedExpr.confidence) * 0.8
      ∧ (parseExpression "true AND x%").conditions = complexConditions "true AND x%"
      ∧ ∀ c ∈ complexConditions "true AND x%",
          (parseExpression "true AND x%").confidence ≤ c.confidence :=
  complex_confidence "true AND x%" (by decide) (by decide) (by decide)
    (Option.isNone_iff_eq_none.mp (by decide)) (by decide)
    (fun h => by
      have hl := congrArg List.length h
      rw [show (complexConditions "true AND x%").length = 1 from by decide] at hl
      exact absurd hl (by decide))

/-- C3 counterexample: `true and x%` (lowercase connective) matches no
idiom, and the spec's case-insensitive reading says it is split — splitting
would classify the side `true` as `publicAccess` and yield `complex`, as
`parseComplexExpression` itself shows — but `classify` returns `custom`
directly, because the `includes(' AND ')`/`includes(' OR ')` guard is
case-sensitive. -/
theorem split_case_counterexample :
    (parseExpression "true and x%").helper = "custom"
      ∧ (parseExpression "true and x%").reason = some "No matching helper pattern found"
      ∧ hasConnective "true and x%" = false
      ∧ (parseComplexExpression "true and x%").helper = "complex"
      ∧ (parseComplexExpression "true and x%").conditions.map ParsedExpr.helper
          = ["publicAccess"] := by
  refine ⟨by decide, by decide, by decide, by decide, by decide⟩

/-- C3 (amended): for every predicate that matches no idiom, is non-empty
and not a boolean literal, and contains the connective `' AND '` or `' OR '`
in uppercase (the guard is case-sensitive, unlike the split regex itself),
`classify` delegates to `parseComplexExpression`, which splits the predicate
on the connective and classifies each side independently, rather than
returning `custom` directly. -/
theorem classify_splits_on_connective (e : String)
    (h1 : (jsTrim e == "") = false)
    (h2 : (jsToLower (jsTrim e) == "true") = false)
    (h3 : (jsToLower (jsTrim e) == "false") = false)
    (h4 : idiomMatch e = none)
    (h5 : hasConnective e = true) :
    parseExpression e = parseComplexExpression e :=
  parseExpression_complex_branch h1 h2 h3 h4 h5

/-- C3 witness: `x % y OR true` takes the delegation. -/
theorem classify_splits_on_connective_witness :
    parseExpression "x % y OR true" = parseComplexExpression "x % y OR true" :=
  classify_splits_on_connective "x % y OR true" (by decide) (by decide) (by decide)
    (Option.isNone_iff_eq_none.mp (by decide)) (by decide)

/-! ## Claims C1 and C5: policy applicability and combination -/

theorem applicablePred_iff (role t c : String) (p : PolicyDefinition) :
    ((if p.table != t then false
      else if p.command != "ALL" && p.command != c then false
      else p.roles.contains role || p.roles.contains "public") = true)
    ↔ (p.table = t ∧ (p.command = "ALL" ∨ p.command = c)
        ∧ (role ∈ p.roles ∨ "public" ∈ p.roles)) := by
  by_cases h1 : p.table = t
  · rw [if_neg (by simp [bne_iff_ne, h1])]
    by_cases h2 : p.command = "ALL" ∨ p.command = c
    · rw [if_neg (by simp only [Bool.and_eq_true, bne_iff_ne, not_and_or, not_not]; tauto)]
      simp [h1, h2, List.elem_iff]
    · push_neg at h2
      rw [if_pos (by simp [bne_iff_ne, h2.1, h2.2])]
      simp only [Bool.false_eq_true, false_iff, not_and_or]
      refine Or.inr (Or.inl (fun hc => ?_))
      rcases hc with hc | hc
      · exact h2.1 hc
      · exact h2.2 hc
  · rw [if_pos (bne_iff_ne.mpr h1)]
    simp [h1]

theorem mem_getApplicablePolicies {sim : RLSSimulator} {t c : String}
    {p : PolicyDefinition} :
    p ∈ sim.getApplicablePolicies t c ↔
      p ∈ sim.policies ∧ p.table = t ∧ (p.command = "ALL" ∨ p.command = c)
        ∧ (sim.context.role ∈ p.roles ∨ "public" ∈ p.roles) := by
  simp only [RLSSimulator.getApplicablePolicies, List.mem_filter]
  exact and_congr Iff.rfl (applicablePred_iff sim.context.role t c p)

theorem getApplicablePolicies_eq_nil {sim : RLSSimulator} {t c : String} :
    sim.getApplicablePolicies t c = [] ↔
      ∀ p ∈ sim.policies,
        ¬(p.table = t ∧ (p.command = "ALL" ∨ p.command = c)
          ∧ (sim.context.role ∈ p.roles ∨ "public" ∈ p.roles)) := by
  rw [RLSSimulator.getApplicablePolicies, List.filter_eq_nil_iff]
  constructor
  · intro h p hp hc
    exact h p hp ((applicablePred_iff sim.context.role t c p).mpr hc)
  · intro h p hp hc
    exact h p hp ((applicablePred_iff sim.context.role t c p).mp hc)

/-- C1 (amended): `select(table)` returns exactly the rows of the stored
mock data for that table such that either no policy at all is applicable to
`(table, SELECT)` under the active context (then every row is returned), or
at least one applicable policy's predicate — PERMISSIVE or not; the engine
ignores the flag — evaluates true against the row plus the session
context. -/
theorem select_membership (sim : RLSSimulator)
    (rawEval : String → EvalContext → Option Bool) (clock : Clock)
    (tableName : String) (r : Row) :
    r ∈ sim.select rawEval clock tableName ↔
      r ∈ sim.tableData tableName ∧
        (sim.getApplicablePolicies tableName "SELECT" = []
          ∨ ∃ p ∈ sim.getApplicablePolicies tableName "SELECT",
              evaluateExpression rawEval sim.context clock p.expression r tableName
                = true) := by
  simp only [RLSSimulator.select]
  by_cases hz : (sim.getApplicablePolicies tableName "SELECT").length = 0
  · have hnil : sim.getApplicablePolicies tableName "SELECT" = [] :=
      List.length_eq_zero.mp hz
    rw [if_pos (by simpa using hz)]
    simp [hnil]
  · have hnil : ¬ sim.getApplicablePolicies tableName "SELECT" = [] := by
      intro hc; rw [hc] at hz; exact hz rfl
    rw [if_neg (by simpa using hz)]
    rw [List.mem_filter, List.any_eq_true]
    simp [hnil]

/-- C1 counterexample: a single applicable RESTRICTIVE policy whose
predicate is true.  The code returns the row, although no applicable
PERMISSIVE policy's predicate is true and the applicable set is non-empty —
so the claim's characterization (restricted to PERMISSIVE policies) is
false on the code. -/
theorem select_membership_counterexample :
    ¬ (∀ r : Row, r ∈ simC1.select rawEvalTrue clock0 "docs" ↔
        r ∈ simC1.tableData "docs" ∧
          (simC1.getApplicablePolicies "docs" "SELECT" = []
            ∨ ∃ p ∈ simC1.getApplicablePolicies "docs" "SELECT",
                isPermissivePolicy p = true ∧
                evaluateExpression rawEvalTrue simC1.context clock0 p.expression r "docs"
                  = true)) := by
  intro h
  have h0 := (h rowC1).mp (by decide)
  rcases h0.2 with hemp | ⟨p, hp, hperm, _⟩
  · rw [show simC1.getApplicablePolicies "docs" "SELECT" = [polC1] from by decide] at hemp
    exact absurd hemp (by decide)
  · rw [show simC1.getApplicablePolicies "docs" "SELECT" = [polC1] from by decide] at hp
    have hpp : p = polC1 := by simpa using hp
    rw [hpp] at hperm
    exact absurd hperm (by decide)

/-- C5: `canWrite` (`canInsertOrUpdate`) is true iff either no policy of the
set is applicable to the INSERT/UPDATE/ALL union for this table under the
active context, or at least one applicable policy's predicate evaluates true
on the candidate row; applicability is table match, command in
`{ALL, INSERT, UPDATE}`, and the active role in the policy's roles or
`public` among them. -/
theorem canInsertOrUpdate_iff (sim : RLSSimulator)
    (rawEval : String → EvalContext → Option Bool) (clock : Clock)
    (tableName : String) (row : Row) :
    sim.canInsertOrUpdate rawEval clock tableName row = true ↔
      ((∀ p ∈ sim.policies, ¬ writeApplicable sim tableName p)
        ∨ ∃ p ∈ sim.policies, writeApplicable sim tableName p ∧
            evaluateExpression rawEval sim.context clock p.expression row tableName
              = true) := by
  have hmem : ∀ p : PolicyDefinition,
      (p ∈ sim.getApplicablePolicies tableName "INSERT"
          ++ sim.getApplicablePolicies tableName "UPDATE"
          ++ sim.getApplicablePolicies tableName "ALL")
        ↔ (p ∈ sim.policies ∧ writeApplicable sim tableName p) := by
    intro p
    simp only [List.mem_append, mem_getApplicablePolicies, writeApplicable]
    constructor
    · rintro ((⟨hp, ht, hc, hr⟩ | ⟨hp, ht, hc, hr⟩) | ⟨hp, ht, hc, hr⟩) <;>
        exact ⟨hp, ht, by tauto, hr⟩
    · rintro ⟨hp, ht, hc, hr⟩
      rcases hc with hc | hc | hc
      · exact Or.inr ⟨hp, ht, Or.inl hc, hr⟩
      · exact Or.inl (Or.inl ⟨hp, ht, Or.inr hc, hr⟩)
      · exact Or.inl (Or.inr ⟨hp, ht, Or.inr hc, hr⟩)
  simp only [RLSSimulator.canInsertOrUpdate]
  by_cases hz : (sim.getApplicablePolicies tableName "INSERT"
      ++ sim.getApplicablePolicies tableName "UPDATE"
      ++ sim.getApplicablePolicies tableName "ALL").length = 0
  · have hnil := List.length_eq_zero.mp hz
    rw [if_pos (by simpa using hz)]
    simp only [true_iff]
    refine Or.inl (fun p hp hw => ?_)
    have : p ∈ ([] : List PolicyDefinition) := hnil ▸ (hmem p).mpr ⟨hp, hw⟩
    simp at this
  · rw [if_neg (by simpa using hz)]
    rw [List.any_eq_true]
    constructor
    · rintro ⟨p, hp, he⟩
      obtain ⟨hp2, hw⟩ := (hmem p).mp hp
      exact Or.inr ⟨p, hp2, hw, he⟩
    · rintro (hall | ⟨p, hp, hw, he⟩)
      · exfalso
        apply hz
        apply List.length_eq_zero.mpr
        cases hl : (sim.getApplicablePolicies tableName "INSERT"
            ++ sim.getApplicablePolicies tableName "UPDATE"
            ++ sim.getApplicablePolicies tableName "ALL") with
        | nil => rfl
        | cons q qs =>
          obtain ⟨hq, hwq⟩ := (hmem q).mp (by rw [hl]; simp)
          exact absurd hwq (hall q hq)
      · exact ⟨p, (hmem p).mpr ⟨hp, hw⟩, he⟩

/-! ## Claim C4: evaluation failures are fail-closed and never abort -/

/-- C4: if evaluating the translated form of an expression throws (the
dynamic evaluation yields no result), the predicate evaluates to `false`;
and under an evaluator for which every evaluation throws, `select` and
`canWrite` still return their normal results — all rows when no policy is
applicable (RLS unenforced), and deny-everything otherwise.  The run is
never aborted: both operations are total by construction. -/
theorem evaluation_fail_closed
    (rawEval : String → EvalContext → Option Bool) (ctx : UserContext)
    (clock : Clock) (expression : String) (row : Row) (tableName : String)
    (sim : RLSSimulator) (tbl : String) (r : Row)
    (h1 : rawEval (convertToJavaScript expression)
        (createEvaluationContext ctx clock row tableName) = none)
    (h2 : ∀ s c, rawEval s c = none) :
    evaluateExpression rawEval ctx clock expression row tableName = false
      ∧ sim.select rawEval clock tbl
          = (if sim.getApplicablePolicies tbl "SELECT" = []
             then sim.tableData tbl else [])
      ∧ sim.canInsertOrUpdate rawEval clock tbl r
          = ((sim.getApplicablePolicies tbl "INSERT"
              ++ sim.getApplicablePolicies tbl "UPDATE"
              ++ sim.getApplicablePolicies tbl "ALL").length == 0) := by
  have heval : ∀ (e : String) (rw : Row) (tn : String),
      evaluateExpression rawEval ctx clock e rw tn = false := by
    intro e rw tn
    simp [evaluateExpression, safeEval, h2]
  have hevalSim : ∀ (e : String) (rw : Row) (tn : String),
      evaluateExpression rawEval sim.context clock e rw tn = false := by
    intro e rw tn
    simp [evaluateExpression, safeEval, h2]
  refine ⟨by simp [evaluateExpression, safeEval, h1], ?_, ?_⟩
  · simp only [RLSSimulator.select]
    by_cases hz : (sim.getApplicablePolicies tbl "SELECT").length = 0
    · rw [if_pos (by simpa using hz), if_pos (List.length_eq_zero.mp hz)]
    · rw [if_neg (by simpa using hz),
        if_neg (fun hc => hz (by rw [hc]; rfl))]
      refine List.filter_eq_nil_iff.mpr (fun rw _ => ?_)
      simp [List.any_eq_true, hevalSim]
  · simp only [RLSSimulator.canInsertOrUpdate]
    by_cases hz : (sim.getApplicablePolicies tbl "INSERT"
        ++ sim.getApplicablePolicies tbl "UPDATE"
        ++ sim.getApplicablePolicies tbl "ALL").length = 0
    · rw [if_pos (by simpa using hz)]
      exact (beq_iff_eq.mpr hz).symm
    · rw [if_neg (by simpa using hz)]
      have : ((sim.getApplicablePolicies tbl "INSERT"
          ++ sim.getApplicablePolicies tbl "UPDATE"
          ++ sim.getApplicablePolicies tbl "ALL").length == 0) = false := by
        simpa using hz
      rw [this]
      simp [List.any_eq_true, hevalSim]

/-- C4 witness: the always-throwing evaluator on the concrete simulator. -/
theorem evaluation_fail_closed_witness :
    evaluateExpression rawEvalNone simC1.context clock0 "true" rowC1 "docs" = false
      ∧ simC1.select rawEvalNone clock0 "docs"
          = (if simC1.getApplicablePolicies "docs" "SELECT" = []
             then simC1.tableData "docs" else [])
      ∧ simC1.canInsertOrUpdate rawEvalNone clock0 "docs" rowC1
          = ((simC1.getApplicablePolicies "docs" "INSERT"
              ++ simC1.getApplicablePolicies "docs" "UPDATE"
              ++ simC1.getApplicablePolicies "docs" "ALL").length == 0) :=
  evaluation_fail_closed rawEvalNone simC1.context clock0 "true" rowC1 "docs"
    simC1 "docs" rowC1 rfl (fun _ _ => rfl)

/-! ## Claim C8: `testPolicies` result shape and missing-context handling -/

/-- C8: `testPolicies` returns `{passed, total, failures}` with `total` the
number of supplied assertions and `passed` true iff the failures list is
empty; and when the leading assertion names a session context absent from
the context list, a structured failure entry is produced (no exception) and
the remaining assertions are still executed — the failure list is that entry
followed by the failures of the batch without it. -/
theorem testPolicies_result_shape
    (rawEval : String → EvalContext → Option Bool) (clock : Clock)
    (config : TestPoliciesConfig) :
    (testPolicies rawEval clock config).total = config.assertions.length
      ∧ ((testPolicies rawEval clock config).passed = true
          ↔ (testPolicies rawEval clock config).failures = [])
      ∧ (∀ (a : TestAssertion) (rest : List TestAssertion),
          config.assertions = a :: rest →
          (∀ c ∈ config.contexts, ¬(c.user = a.context)) →
          (testPolicies rawEval clock config).failures
            = contextMissingFailure a
                :: (testPolicies rawEval clock
                      { config with assertions := rest }).failures) := by
  refine ⟨rfl, ?_, ?_⟩
  · show ((runAssertions rawEval clock config.data (config.policies.getD [])
        config.contexts { user := "", role := "public", settings := [] }
        config.assertions).length == 0) = true ↔ _
    rw [beq_iff_eq, List.length_eq_zero]
    exact Iff.rfl
  · intro a rest hassert hmiss
    show (runAssertions rawEval clock config.data (config.policies.getD [])
        config.contexts { user := "", role := "public", settings := [] }
        config.assertions) = _
    rw [hassert]
    have hfind : config.contexts.find? (fun c => c.user == a.context) = none :=
      List.find?_eq_none.mpr (fun c hc => by
        simpa using hmiss c hc)
    simp only [runAssertions, hfind]
    rfl

/-- C8 witness: a two-assertion batch whose first assertion names a missing
context. -/
theorem testPolicies_result_shape_witness :
    (testPolicies rawEvalNone clock0 cfgC8).total = cfgC8.assertions.length
      ∧ ((testPolicies rawEvalNone clock0 cfgC8).passed = true
          ↔ (testPolicies rawEvalNone clock0 cfgC8).failures = [])
      ∧ (testPolicies rawEvalNone clock0 cfgC8).failures
          = contextMissingFailure aGhost
              :: (testPolicies rawEvalNone clock0
                    { cfgC8 with assertions := [aOk] }).failures :=
  ⟨(testPolicies_result_shape rawEvalNone clock0 cfgC8).1,
   (testPolicies_result_shape rawEvalNone clock0 cfgC8).2.1,
   (testPolicies_result_shape rawEvalNone clock0 cfgC8).2.2 aGhost [aOk] rfl (by decide)⟩

end RlsGuard
